import Mathlib

/-!
A shallow embedding of chest (`src/chest/core.py`)

`Chest` is a `MutableMapping` that spills large contents to disk.  The model
below translates the module faithfully:

* the in-memory dict `self.inmem` becomes an association list `inmem`
  (Python dict semantics: overwrite in place, append new keys at the end);
* the key set `self._keys` becomes a duplicate-free list `keys`;
* the backing directory becomes a flat map `files` from filename to file
  content, where an entry `(n, some b)` is a file holding well-formed
  serialized bytes `b` and `(n, none)` is a file that exists but is
  truncated/corrupt (`open(fn, 'w')` truncates before the dump runs);
* the caller-supplied `dump`/`load` functions are fallible
  (`V → Option B` / `B → Option V`): `none` models a raised exception;
* `os.path.join(self.path, ...)` prefixes every name with the same constant
  directory, so it is dropped: `Config.toFilename` models
  `self._key_to_filename` directly;
* exceptions are modelled by returning the state as mutated up to the point
  of the raise, together with an `Err` value (`Chest × Option Err`, or
  `Chest × Except Err V` for `__getitem__`).
-/

set_option maxRecDepth 4000
set_option linter.unusedSectionVars false

universe u

/-- Errors a chest operation can raise: `keyNotFound` models Python
`KeyError`, `fileNotFound` a missing backing file (`IOError`),
`dumpFailed` / `loadFailed` a serializer/deserializer exception. -/
inductive Err where
  | keyNotFound
  | fileNotFound
  | dumpFailed
  | loadFailed
deriving DecidableEq, Repr

section AssocOps

variable {K V B : Type}

/-- Python dict lookup `l[k]` (as an option). -/
def lookup' [DecidableEq K] : List (K × V) → K → Option V
  | [], _ => none
  | (a, b) :: t, k => if a = k then some b else lookup' t k

/-- Python dict `del l[k]` (removes every binding of `k`; a Python dict
holds each key at most once, which the model maintains). -/
def eraseKey' [DecidableEq K] : List (K × V) → K → List (K × V)
  | [], _ => []
  | (a, b) :: t, k => if a = k then eraseKey' t k else (a, b) :: eraseKey' t k

/-- Python dict assignment `l[k] = v`: overwrite in place if the key is
present, append at the end otherwise (dicts preserve insertion order). -/
def insert' [DecidableEq K] : List (K × V) → K → V → List (K × V)
  | [], k, v => [(k, v)]
  | (a, b) :: t, k, v => if a = k then (a, v) :: t else (a, b) :: insert' t k v

/-- The keys of an association list, in order. -/
def keysOf (l : List (K × V)) : List K := l.map Prod.fst

/-- The association list represents a dict: no key occurs twice. -/
def NodupK (l : List (K × V)) : Prop := (keysOf l).Nodup

instance [DecidableEq K] (l : List (K × V)) : Decidable (NodupK l) :=
  inferInstanceAs (Decidable (keysOf l).Nodup)

/-- Python `set.add`. -/
def insertKey [DecidableEq K] (l : List K) (k : K) : List K :=
  if k ∈ l then l else k :: l

/-- Python `set.remove` (the membership test is done by the caller). -/
def eraseAllK [DecidableEq K] : List K → K → List K
  | [], _ => []
  | a :: t, k => if a = k then eraseAllK t k else a :: eraseAllK t k

/-- Read a file: `none` = no such file, `some none` = file exists but is
truncated/corrupt, `some (some b)` = file holds serialized bytes `b`. -/
def fileGet {B : Type} : List (String × Option B) → String → Option (Option B)
  | [], _ => none
  | (m, c) :: t, n => if m = n then some c else fileGet t n

/-- Create or overwrite a file. -/
def setFile {B : Type} : List (String × Option B) → String → Option B → List (String × Option B)
  | [], n, c => [(n, c)]
  | (m, d) :: t, n, c => if m = n then (m, c) :: t else (m, d) :: setFile t n c

/-- `os.remove` (the existence test is done by the caller; removing an
absent name is a no-op here, matching the guarded call site). -/
def removeFile {B : Type} : List (String × Option B) → String → List (String × Option B)
  | [], _ => []
  | (m, d) :: t, n => if m = n then removeFile t n else (m, d) :: removeFile t n

/-- One step of Python's stable ascending sort: insert `x` before the first
element whose measure is not smaller. -/
def insertAsc (f : K × V → Nat) (x : K × V) : List (K × V) → List (K × V)
  | [] => [x]
  | y :: t => if f x ≤ f y then x :: y :: t else y :: insertAsc f x t

/-- Python `sorted(l, key=f)` (stable, ascending). -/
def sortAsc (f : K × V → Nat) : List (K × V) → List (K × V)
  | [] => []
  | x :: t => insertAsc f x (sortAsc f t)

end AssocOps

/-- The externally supplied collaborators of a `Chest`: the serializer and
deserializer (`dump`/`load`), the key-to-filename function
(`self._key_to_filename`), and the byte-size estimator `nbytes`.
`dumpKeys`/`loadKeys` are the same pickle functions applied to the key list
written to the `.keys` manifest. -/
structure Config (K V B : Type) where
  dump : V → Option B
  load : B → Option V
  toFilename : K → String
  nbytes : V → Nat
  dumpKeys : List K → Option B
  loadKeys : B → Option (List K)

/-- The state of a `Chest`: in-memory dict, key set, backing directory,
and memory budget (`available_memory`). -/
structure Chest (K V B : Type) where
  inmem : List (K × V)
  keys : List K
  files : List (String × Option B)
  availableMemory : Nat
deriving DecidableEq, Repr

variable {K V B : Type}

/-- `Chest.memory_usage`: `sum(map(nbytes, self.inmem.values()))`. -/
def weightOf (cfg : Config K V B) (l : List (K × V)) : Nat :=
  (l.map (fun p => cfg.nbytes p.2)).sum

/-- `Chest.memory_usage` as a property of the state. -/
def memory_usage (cfg : Config K V B) (s : Chest K V B) : Nat :=
  weightOf cfg s.inmem

/-- `Chest.move_to_disk`: `open(fn, 'w')` first truncates/creates the file,
then `self.dump(self.inmem[key], f)` runs (a `KeyError` or a serializer
exception leaves the file truncated and the dict untouched), and only after
a successful dump is the key deleted from `self.inmem`. -/
def move_to_disk [DecidableEq K] (cfg : Config K V B) (s : Chest K V B) (k : K) :
    Chest K V B × Option Err :=
  let fn := cfg.toFilename k
  match lookup' s.inmem k with
  | none => ({ s with files := setFile s.files fn none }, some Err.keyNotFound)
  | some v =>
    match cfg.dump v with
    | none => ({ s with files := setFile s.files fn none }, some Err.dumpFailed)
    | some b =>
      ({ s with files := setFile (setFile s.files fn none) fn (some b),
                inmem := eraseKey' s.inmem k }, none)

/-- `Chest.get_from_disk`: return early if the key is already in memory,
otherwise open its backing file, deserialize, and cache the value in
`self.inmem`.  The file is *not* removed. -/
def get_from_disk [DecidableEq K] (cfg : Config K V B) (s : Chest K V B) (k : K) :
    Chest K V B × Option Err :=
  match lookup' s.inmem k with
  | some _ => (s, none)
  | none =>
    match fileGet s.files (cfg.toFilename k) with
    | none => (s, some Err.fileNotFound)
    | some none => (s, some Err.loadFailed)
    | some (some b) =>
      match cfg.load b with
      | none => (s, some Err.loadFailed)
      | some v => ({ s with inmem := insert' s.inmem k v }, none)

/-- The body of `Chest.shrink`'s while loop over the sorted snapshot
(`inmem.pop()` takes the largest remaining entry, so the snapshot is passed
here already reversed into descending order).  `mem` is the running total,
decremented by the snapshot value's size after each move. -/
def shrinkLoop [DecidableEq K] (cfg : Config K V B) :
    List (K × V) → Int → Chest K V B → Chest K V B × Option Err
  | [], _, s => (s, none)
  | (k, v) :: rest, mem, s =>
    if mem ≤ (s.availableMemory : Int) then (s, none)
    else
      match move_to_disk cfg s k with
      | (s1, some e) => (s1, some e)
      | (s1, none) => shrinkLoop cfg rest (mem - (cfg.nbytes v : Int)) s1

/-- `Chest.shrink`: spill in-memory storage to disk, largest values first,
until usage is not above `available_memory`. -/
def shrink [DecidableEq K] (cfg : Config K V B) (s : Chest K V B) :
    Chest K V B × Option Err :=
  let mem := memory_usage cfg s
  if mem < s.availableMemory then (s, none)
  else shrinkLoop cfg (sortAsc (fun p => cfg.nbytes p.2) s.inmem).reverse (mem : Int) s

/-- `Chest.__getitem__`: the in-memory dict is tried first (its `KeyError`
is swallowed by the bare except), then the key set is consulted, then the
value is pulled from disk, recorded, and `shrink` runs before returning. -/
def getItem [DecidableEq K] (cfg : Config K V B) (s : Chest K V B) (k : K) :
    Chest K V B × Except Err V :=
  match lookup' s.inmem k with
  | some v => (s, Except.ok v)
  | none =>
    if k ∈ s.keys then
      match get_from_disk cfg s k with
      | (s1, some e) => (s1, Except.error e)
      | (s1, none) =>
        match lookup' s1.inmem k with
        | some v =>
          match shrink cfg s1 with
          | (s2, some e) => (s2, Except.error e)
          | (s2, none) => (s2, Except.ok v)
        | none => (s1, Except.error Err.keyNotFound)
    else (s, Except.error Err.keyNotFound)

/-- `Chest.__delitem__`: drop the in-memory entry if present, remove the
backing file if it exists, then `self._keys.remove(key)` — which raises
`KeyError` when the key was never tracked, *after* the two removals. -/
def delItem [DecidableEq K] (cfg : Config K V B) (s : Chest K V B) (k : K) :
    Chest K V B × Option Err :=
  let s1 : Chest K V B := { s with inmem := eraseKey' s.inmem k }
  let s2 : Chest K V B := { s1 with files := removeFile s1.files (cfg.toFilename k) }
  if k ∈ s2.keys then ({ s2 with keys := eraseAllK s2.keys k }, none)
  else (s2, some Err.keyNotFound)

/-- `Chest.__setitem__`: an already-tracked key is first deleted outright
(`del self[key]`), then the value is stored in memory, the key registered,
and `shrink` runs. -/
def setItem [DecidableEq K] (cfg : Config K V B) (s : Chest K V B) (k : K) (v : V) :
    Chest K V B × Option Err :=
  match (if k ∈ s.keys then delItem cfg s k else (s, none)) with
  | (s0, some e) => (s0, some e)
  | (s0, none) =>
    shrink cfg { s0 with inmem := insert' s0.inmem k v, keys := insertKey s0.keys k }

/-- `Chest.write_keys`: truncate the `.keys` manifest, then dump
`list(self._keys)` into it. -/
def write_keys (cfg : Config K V B) (s : Chest K V B) : Chest K V B × Option Err :=
  match cfg.dumpKeys s.keys with
  | none => ({ s with files := setFile s.files ".keys" none }, some Err.dumpFailed)
  | some b =>
    ({ s with files := setFile (setFile s.files ".keys" none) ".keys" (some b) }, none)

/-- The `for key in list(self.inmem)` loop of `Chest.flush`: move every key
of the snapshot to disk, propagating the first exception. -/
def flushLoop [DecidableEq K] (cfg : Config K V B) :
    List K → Chest K V B → Chest K V B × Option Err
  | [], s => (s, none)
  | k :: rest, s =>
    match move_to_disk cfg s k with
    | (s1, some e) => (s1, some e)
    | (s1, none) => flushLoop cfg rest s1

/-- `Chest.flush`: move all in-memory storage to disk (no budget check),
then persist the key manifest. -/
def flushChest [DecidableEq K] (cfg : Config K V B) (s : Chest K V B) :
    Chest K V B × Option Err :=
  match flushLoop cfg (keysOf s.inmem) s with
  | (s1, some e) => (s1, some e)
  | (s1, none) => write_keys cfg s1

/-- `Chest.__init__`: `self.inmem = data or dict()`, `self._keys = set()`;
if the directory pre-exists and holds a `.keys` manifest, the key set is
restored from it (`set(self.load(f))` — modelled by `List.dedup`).
`files0` is the pre-existing directory content (`[]` for a fresh one). -/
def initChest [DecidableEq K] (cfg : Config K V B) (data : List (K × V))
    (files0 : List (String × Option B)) (am : Nat) : Chest K V B × Option Err :=
  match fileGet files0 ".keys" with
  | none => ({ inmem := data, keys := [], files := files0, availableMemory := am }, none)
  | some none =>
    ({ inmem := data, keys := [], files := files0, availableMemory := am }, some Err.loadFailed)
  | some (some b) =>
    match cfg.loadKeys b with
    | none =>
      ({ inmem := data, keys := [], files := files0, availableMemory := am }, some Err.loadFailed)
    | some ks =>
      ({ inmem := data, keys := ks.dedup, files := files0, availableMemory := am }, none)

/-- A chest freshly constructed with no seed data in a new directory. -/
def freshChest (am : Nat) : Chest K V B :=
  { inmem := [], keys := [], files := [], availableMemory := am }

/-- The states a chest reaches, starting from a fresh empty construction,
under the public mutating operations (each reached state is the one the
caller observes when the call returns, whether it raised or not). -/
inductive Reachable [DecidableEq K] (cfg : Config K V B) : Chest K V B → Prop where
  | init (am : Nat) : Reachable cfg (freshChest am)
  | set {s : Chest K V B} (k : K) (v : V) :
      Reachable cfg s → Reachable cfg (setItem cfg s k v).1
  | get {s : Chest K V B} (k : K) :
      Reachable cfg s → Reachable cfg (getItem cfg s k).1
  | del {s : Chest K V B} (k : K) :
      Reachable cfg s → Reachable cfg (delItem cfg s k).1
  | flushed {s : Chest K V B} :
      Reachable cfg s → Reachable cfg (flushChest cfg s).1

/-- The keys() / inmem / disk set-equivalence: a key is tracked iff it is
resident in memory or its backing file exists. -/
def SetEquiv [DecidableEq K] (cfg : Config K V B) (s : Chest K V B) : Prop :=
  ∀ k : K, k ∈ s.keys ↔
    (lookup' s.inmem k ≠ none ∨ fileGet s.files (cfg.toFilename k) ≠ none)

/-- Well-formedness carried through the reachability induction. -/
def Wf [DecidableEq K] (cfg : Config K V B) (s : Chest K V B) : Prop :=
  NodupK s.inmem ∧ SetEquiv cfg s

/-- The eviction-convergence condition: the footprint fits the budget or
nothing is left in memory. -/
def Converged (cfg : Config K V B) (s : Chest K V B) : Prop :=
  memory_usage cfg s ≤ s.availableMemory ∨ s.inmem = []

/-! ## The default key-to-filename function (`key_to_filename`) -/

/-- A Python key, as far as the default `key_to_filename` distinguishes
them: a `str`, or any other hashable object (a two-string tuple here,
matching the spec's scenario). -/
inductive PyKey where
  | str (s : String)
  | tup (a b : String)
deriving DecidableEq, Repr

/-- The ASCII fragment of the regex class `\w`. -/
def isWordChar (c : Char) : Bool := c.isAlpha || c.isDigit || c = '_'

/-- The regex class `[_a-zA-Z]`. -/
def isIdentStart (c : Char) : Bool := c.isAlpha || c = '_'

/-- Is this character the newline that `$` may skip? -/
def isNl (c : Char) : Bool := c = '\n'

/-- `\w*$` under Python `re.match` semantics: `$` matches at the end of the
string or just before one trailing newline. -/
def identTail : List Char → Bool
  | [] => true
  | [c] => isNl c || isWordChar c
  | c :: rest => isWordChar c && identTail rest

/-- Does the string end in a newline? -/
def lastIsNl (l : List Char) : Bool :=
  match l.getLast? with
  | some c => isNl c
  | none => false

/-- Python `re.match('^[_a-zA-Z]\w*$', s)` (over ASCII strings; the model
restricts the unicode-aware `\w` to its ASCII fragment). -/
def reMatchIdent (s : String) : Bool :=
  match s.data with
  | [] => false
  | c :: rest => isIdentStart c && identTail rest

/-- The module-level `key_to_filename`: identifier-looking strings map to
themselves, every other key to `str(abs(hash(key)))`.  Python's `hash` is
an external builtin, passed in as a function. -/
def key_to_filename (hash : PyKey → Int) (key : PyKey) : String :=
  match key with
  | PyKey.str s => if reMatchIdent s then s else toString (hash key).natAbs
  | PyKey.tup _ _ => toString (hash key).natAbs

/-- Modelled from the spec's words (claim C8): the characters are letters,
digits or underscore and the first is not a digit. -/
def specIdentCore : List Char → Bool
  | [] => false
  | c :: rest => isIdentStart c && rest.all isWordChar

/-- Modelled from the spec's words, amended: the filename a key should map
to — an identifier-pattern string (possibly with a single trailing newline,
the `$` artefact) maps to itself, anything else to the decimal rendering of
the absolute value of its hash. -/
def specFilename (hash : PyKey → Int) (key : PyKey) : String :=
  match key with
  | PyKey.str s =>
    if specIdentCore s.data || (lastIsNl s.data && specIdentCore s.data.dropLast) then s
    else toString (hash key).natAbs
  | PyKey.tup _ _ => toString (hash key).natAbs

/-! ### Concrete instantiations used in the examples below -/

/-- A two-key chest configuration with trivial (identity-like) serialization
and an injective filename map. -/
def cfgW : Config Bool Nat Nat :=
  { dump := some, load := some,
    toFilename := fun b => if b then "t" else "f",
    nbytes := id,
    dumpKeys := fun _ => some 0, loadKeys := fun _ => some [] }

/-- A configuration whose key-to-filename function maps every key to the
same file — a filename collision. -/
def cfgColl : Config (Fin 3) Nat Nat :=
  { dump := some, load := some,
    toFilename := fun _ => "f",
    nbytes := id,
    dumpKeys := fun _ => some 0, loadKeys := fun _ => some [] }

/-- A configuration whose serializer always raises. -/
def cfgDumpFail : Config Bool Nat Nat :=
  { dump := fun _ => none, load := some,
    toFilename := fun b => if b then "t" else "f",
    nbytes := id,
    dumpKeys := fun _ => some 0, loadKeys := fun _ => some [] }

/-- Fresh chest, budget 10; write `true ↦ 6`, write `false ↦ 6` (which
evicts `false` to disk), then delete `true`: one key, on disk only. -/
def exS3 : Chest Bool Nat Nat :=
  (delItem cfgW (setItem cfgW (setItem cfgW (freshChest 10) true 6).1 false 6).1 true).1

/-- Reading `false` from `exS3` loads it into memory — and leaves the file. -/
def exS4 : Chest Bool Nat Nat := (getItem cfgW exS3 false).1

/-- A chest seeded through the constructor (`data` argument) under the
colliding configuration, budget 6. -/
def collSeed : Chest (Fin 3) Nat Nat := (initChest cfgColl [(0, 3), (1, 4)] [] 6).1

/-- A chest with two in-memory entries, used to exercise `flush`. -/
def flushS : Chest Bool Nat Nat :=
  { inmem := [(true, 5), (false, 3)], keys := [true, false], files := [],
    availableMemory := 10 }

/-- A chest with one in-memory entry, used to exercise a failing dump. -/
def dumpFailS : Chest Bool Nat Nat :=
  { inmem := [(true, 5)], keys := [true], files := [], availableMemory := 10 }

/-- A chest tracking no keys but with a stray file at `false`'s mapped
path (as a filename collision would leave). -/
def delFileS : Chest Bool Nat Nat :=
  { inmem := [], keys := [], files := [("f", some 9)], availableMemory := 10 }


/-! ## Basic lemmas about the dict / set / directory operations -/

section BasicLemmas

variable {K V : Type} [DecidableEq K]

@[simp] theorem lookup'_nil (k : K) : lookup' ([] : List (K × V)) k = none := rfl

@[simp] theorem lookup'_cons (a : K) (b : V) (t : List (K × V)) (k : K) :
    lookup' ((a, b) :: t) k = if a = k then some b else lookup' t k := rfl

@[simp] theorem eraseKey'_nil (k : K) : eraseKey' ([] : List (K × V)) k = [] := rfl

@[simp] theorem eraseKey'_cons (a : K) (b : V) (t : List (K × V)) (k : K) :
    eraseKey' ((a, b) :: t) k =
      if a = k then eraseKey' t k else (a, b) :: eraseKey' t k := rfl

@[simp] theorem insert'_nil (k : K) (v : V) : insert' ([] : List (K × V)) k v = [(k, v)] := rfl

@[simp] theorem insert'_cons (a : K) (b : V) (t : List (K × V)) (k : K) (v : V) :
    insert' ((a, b) :: t) k v =
      if a = k then (a, v) :: t else (a, b) :: insert' t k v := rfl

@[simp] theorem keysOf_nil : keysOf ([] : List (K × V)) = [] := rfl

@[simp] theorem keysOf_cons (a : K) (b : V) (t : List (K × V)) :
    keysOf ((a, b) :: t) = a :: keysOf t := rfl

@[simp] theorem NodupK_nil : NodupK ([] : List (K × V)) := by simp [NodupK]

theorem NodupK_cons_iff (a : K) (b : V) (t : List (K × V)) :
    NodupK ((a, b) :: t) ↔ a ∉ keysOf t ∧ NodupK t := by
  simp [NodupK, List.nodup_cons]

theorem lookup'_eraseKey' (l : List (K × V)) (k k' : K) :
    lookup' (eraseKey' l k) k' = if k' = k then none else lookup' l k' := by
  induction l with
  | nil => simp
  | cons p t ih =>
    obtain ⟨a, b⟩ := p
    rcases eq_or_ne a k with h | h
    · subst h
      rw [eraseKey'_cons, if_pos rfl, ih]
      rcases eq_or_ne k' a with h' | h'
      · simp [h']
      · rw [if_neg h', if_neg h', lookup'_cons, if_neg (fun hh => h' hh.symm)]
    · rw [eraseKey'_cons, if_neg h, lookup'_cons]
      rcases eq_or_ne a k' with h2 | h2
      · subst h2
        rw [if_pos rfl, if_neg (fun hh : a = k => h hh), lookup'_cons, if_pos rfl]
      · rw [if_neg h2, ih, lookup'_cons, if_neg h2]

theorem lookup'_insert' (l : List (K × V)) (k k' : K) (v : V) :
    lookup' (insert' l k v) k' = if k' = k then some v else lookup' l k' := by
  induction l with
  | nil =>
    rcases eq_or_ne k' k with h | h
    · simp [h]
    · rw [insert'_nil, lookup'_cons, if_neg (fun hh : k = k' => h hh.symm), if_neg h, lookup'_nil]
  | cons p t ih =>
    obtain ⟨a, b⟩ := p
    rcases eq_or_ne a k with h | h
    · subst h
      rw [insert'_cons, if_pos rfl, lookup'_cons, lookup'_cons]
      rcases eq_or_ne a k' with h' | h'
      · rw [if_pos h', if_pos h'.symm]
      · rw [if_neg h', if_neg (fun hh : k' = a => h' hh.symm), if_neg h']
    · rw [insert'_cons, if_neg h, lookup'_cons, lookup'_cons]
      rcases eq_or_ne a k' with h2 | h2
      · subst h2
        rw [if_pos rfl, if_pos rfl, if_neg (fun hh : a = k => h hh)]
      · rw [if_neg h2, if_neg h2, ih]

theorem lookup'_isSome_iff (l : List (K × V)) (k : K) :
    lookup' l k ≠ none ↔ k ∈ keysOf l := by
  induction l with
  | nil => simp
  | cons p t ih =>
    obtain ⟨a, b⟩ := p
    rcases eq_or_ne a k with h | h
    · simp [h]
    · simp only [lookup'_cons, if_neg h, keysOf_cons, List.mem_cons]
      rw [ih]
      constructor
      · exact Or.inr
      · rintro (h' | h')
        · exact absurd h'.symm h
        · exact h'

theorem lookup'_eq_none_iff (l : List (K × V)) (k : K) :
    lookup' l k = none ↔ k ∉ keysOf l := by
  rw [← lookup'_isSome_iff]
  tauto

theorem lookup'_of_mem_nodup {l : List (K × V)} {k : K} {v : V}
    (hn : NodupK l) (hm : (k, v) ∈ l) : lookup' l k = some v := by
  induction l with
  | nil => simp at hm
  | cons p t ih =>
    obtain ⟨a, b⟩ := p
    rw [NodupK_cons_iff] at hn
    rcases List.mem_cons.mp hm with h | h
    · rw [Prod.mk.injEq] at h
      rw [lookup'_cons, if_pos h.1.symm, h.2]
    · have hak : a ≠ k := by
        intro h'
        subst h'
        exact hn.1 (by simpa [keysOf] using ⟨v, h⟩)
      rw [lookup'_cons, if_neg hak]
      exact ih hn.2 h

theorem mem_keysOf_iff {l : List (K × V)} {x : K} :
    x ∈ keysOf l ↔ ∃ v, (x, v) ∈ l := by
  constructor
  · intro h
    rw [keysOf, List.mem_map] at h
    obtain ⟨⟨a, v⟩, hm, ha⟩ := h
    exact ⟨v, by rwa [show a = x from ha] at hm⟩
  · rintro ⟨v, hm⟩
    rw [keysOf, List.mem_map]
    exact ⟨(x, v), hm, rfl⟩

theorem mem_keysOf_eraseKey' (l : List (K × V)) (k x : K) :
    x ∈ keysOf (eraseKey' l k) ↔ x ∈ keysOf l ∧ x ≠ k := by
  have h1 : (lookup' (eraseKey' l k) x ≠ none) ↔ x ∈ keysOf (eraseKey' l k) :=
    lookup'_isSome_iff _ _
  rw [← h1, lookup'_eraseKey']
  rcases eq_or_ne x k with h | h
  · simp [h]
  · simp [h, lookup'_isSome_iff]

theorem eraseKey'_of_not_mem {l : List (K × V)} {k : K}
    (h : k ∉ keysOf l) : eraseKey' l k = l := by
  induction l with
  | nil => rfl
  | cons p t ih =>
    obtain ⟨a, b⟩ := p
    rw [keysOf_cons, List.mem_cons] at h
    push_neg at h
    rw [eraseKey'_cons, if_neg (fun hh : a = k => h.1 hh.symm), ih h.2]

theorem NodupK_eraseKey' {l : List (K × V)} (k : K) (hn : NodupK l) :
    NodupK (eraseKey' l k) := by
  induction l with
  | nil => simp
  | cons p t ih =>
    obtain ⟨a, b⟩ := p
    rw [NodupK_cons_iff] at hn
    rcases eq_or_ne a k with h | h
    · rw [eraseKey'_cons, if_pos h]
      exact ih hn.2
    · rw [eraseKey'_cons, if_neg h, NodupK_cons_iff]
      refine ⟨?_, ih hn.2⟩
      rw [mem_keysOf_eraseKey']
      rintro ⟨h1, _⟩
      exact hn.1 h1

theorem mem_keysOf_insert' (l : List (K × V)) (k x : K) (v : V) :
    x ∈ keysOf (insert' l k v) ↔ x ∈ keysOf l ∨ x = k := by
  rw [← lookup'_isSome_iff, lookup'_insert']
  rcases eq_or_ne x k with h | h
  · simp [h]
  · simp [h, lookup'_isSome_iff]

theorem NodupK_insert' {l : List (K × V)} (k : K) (v : V) (hn : NodupK l) :
    NodupK (insert' l k v) := by
  induction l with
  | nil => simp [NodupK]
  | cons p t ih =>
    obtain ⟨a, b⟩ := p
    rw [NodupK_cons_iff] at hn
    rcases eq_or_ne a k with h | h
    · rw [insert'_cons, if_pos h, NodupK_cons_iff]
      exact hn
    · rw [insert'_cons, if_neg h, NodupK_cons_iff]
      refine ⟨?_, ih hn.2⟩
      rw [mem_keysOf_insert']
      rintro (h1 | h1)
      · exact hn.1 h1
      · exact h h1

theorem lookup'_all_none_eq_nil {l : List (K × V)}
    (h : ∀ k, lookup' l k = none) : l = [] := by
  cases l with
  | nil => rfl
  | cons p t =>
    obtain ⟨a, b⟩ := p
    have := h a
    simp at this

theorem mem_eraseAllK (l : List K) (k x : K) :
    x ∈ eraseAllK l k ↔ x ∈ l ∧ x ≠ k := by
  induction l with
  | nil => simp [eraseAllK]
  | cons a t ih =>
    rcases eq_or_ne a k with h | h
    · subst h
      rw [show eraseAllK (a :: t) a = eraseAllK t a from by rw [eraseAllK, if_pos rfl]]
      rw [ih, List.mem_cons]
      constructor
      · rintro ⟨h1, h2⟩
        exact ⟨Or.inr h1, h2⟩
      · rintro ⟨h1 | h1, h2⟩
        · exact absurd h1 h2
        · exact ⟨h1, h2⟩
    · rw [show eraseAllK (a :: t) k = a :: eraseAllK t k from by rw [eraseAllK, if_neg h]]
      rw [List.mem_cons, ih, List.mem_cons]
      constructor
      · rintro (h1 | ⟨h1, h2⟩)
        · exact ⟨Or.inl h1, h1 ▸ h⟩
        · exact ⟨Or.inr h1, h2⟩
      · rintro ⟨h1 | h1, h2⟩
        · exact Or.inl h1
        · exact Or.inr ⟨h1, h2⟩

theorem mem_insertKey (l : List K) (k x : K) :
    x ∈ insertKey l k ↔ x ∈ l ∨ x = k := by
  rcases eq_or_ne x k with hx | hx
  · subst hx
    by_cases h : x ∈ l <;> simp [insertKey, h]
  · by_cases h : k ∈ l <;> simp [insertKey, h, hx]

end BasicLemmas

section FileLemmas

variable {B : Type}

@[simp] theorem fileGet_nil (n : String) :
    fileGet ([] : List (String × Option B)) n = none := rfl

@[simp] theorem setFile_nil (n : String) (c : Option B) :
    setFile ([] : List (String × Option B)) n c = [(n, c)] := rfl

@[simp] theorem setFile_cons (m : String) (d : Option B) (t : List (String × Option B))
    (n : String) (c : Option B) :
    setFile ((m, d) :: t) n c = if m = n then (m, c) :: t else (m, d) :: setFile t n c := rfl

@[simp] theorem fileGet_cons (m : String) (d : Option B) (t : List (String × Option B))
    (n : String) :
    fileGet ((m, d) :: t) n = if m = n then some d else fileGet t n := rfl

@[simp] theorem removeFile_nil (n : String) :
    removeFile ([] : List (String × Option B)) n = [] := rfl

@[simp] theorem removeFile_cons (m : String) (d : Option B) (t : List (String × Option B))
    (n : String) :
    removeFile ((m, d) :: t) n =
      if m = n then removeFile t n else (m, d) :: removeFile t n := rfl

theorem fileGet_setFile_self (l : List (String × Option B)) (n : String) (c : Option B) :
    fileGet (setFile l n c) n = some c := by
  induction l with
  | nil => simp
  | cons p t ih =>
    obtain ⟨m, d⟩ := p
    rcases eq_or_ne m n with h | h <;> simp [h, ih]

theorem fileGet_setFile_ne (l : List (String × Option B)) {n n' : String} (c : Option B)
    (h : n' ≠ n) : fileGet (setFile l n c) n' = fileGet l n' := by
  induction l with
  | nil => rw [setFile_nil, fileGet_cons, if_neg (fun hh : n = n' => h hh.symm), fileGet_nil]
  | cons p t ih =>
    obtain ⟨m, d⟩ := p
    rcases eq_or_ne m n with hm | hm
    · rw [setFile_cons, if_pos hm, fileGet_cons, fileGet_cons,
          if_neg (fun hh : m = n' => h (hh.symm.trans hm)),
          if_neg (fun hh : m = n' => h (hh.symm.trans hm))]
    · rw [setFile_cons, if_neg hm, fileGet_cons, fileGet_cons]
      rcases eq_or_ne m n' with hm' | hm'
      · rw [if_pos hm', if_pos hm']
      · rw [if_neg hm', if_neg hm', ih]

theorem setFile_setFile (l : List (String × Option B)) (n : String) (c c' : Option B) :
    setFile (setFile l n c) n c' = setFile l n c' := by
  induction l with
  | nil => simp
  | cons p t ih =>
    obtain ⟨m, d⟩ := p
    rcases eq_or_ne m n with h | h <;> simp [h, ih]

theorem setFile_of_fileGet {l : List (String × Option B)} {n : String} {c : Option B}
    (h : fileGet l n = some c) : setFile l n c = l := by
  induction l with
  | nil => simp at h
  | cons p t ih =>
    obtain ⟨m, d⟩ := p
    rcases eq_or_ne m n with hm | hm
    · rw [fileGet_cons, if_pos hm] at h
      rw [setFile_cons, if_pos hm, Option.some_inj.mp h]
    · rw [fileGet_cons, if_neg hm] at h
      rw [setFile_cons, if_neg hm, ih h]

theorem fileGet_removeFile_self (l : List (String × Option B)) (n : String) :
    fileGet (removeFile l n) n = none := by
  induction l with
  | nil => simp
  | cons p t ih =>
    obtain ⟨m, d⟩ := p
    rcases eq_or_ne m n with h | h <;> simp [h, ih]

theorem fileGet_removeFile_ne (l : List (String × Option B)) {n n' : String}
    (h : n' ≠ n) : fileGet (removeFile l n) n' = fileGet l n' := by
  induction l with
  | nil => simp
  | cons p t ih =>
    obtain ⟨m, d⟩ := p
    rcases eq_or_ne m n with hm | hm
    · rw [removeFile_cons, if_pos hm, ih, fileGet_cons,
          if_neg (fun hh : m = n' => h (hh.symm.trans hm))]
    · rw [removeFile_cons, if_neg hm, fileGet_cons, fileGet_cons]
      rcases eq_or_ne m n' with hm' | hm'
      · rw [if_pos hm', if_pos hm']
      · rw [if_neg hm', if_neg hm', ih]

end FileLemmas

section SortLemmas

variable {K V : Type}

theorem insertAsc_perm (f : K × V → Nat) (x : K × V) (l : List (K × V)) :
    List.Perm (insertAsc f x l) (x :: l) := by
  induction l with
  | nil => simp [insertAsc]
  | cons y t ih =>
    by_cases h : f x ≤ f y
    · simp [insertAsc, h]
    · rw [insertAsc, if_neg h]
      exact (ih.cons y).trans (List.Perm.swap x y t)

theorem sortAsc_perm (f : K × V → Nat) (l : List (K × V)) :
    List.Perm (sortAsc f l) l := by
  induction l with
  | nil => simp [sortAsc]
  | cons x t ih =>
    exact (insertAsc_perm f x (sortAsc f t)).trans (ih.cons x)

theorem sortAsc_reverse_perm (f : K × V → Nat) (l : List (K × V)) :
    List.Perm (sortAsc f l).reverse l :=
  (List.reverse_perm _).trans (sortAsc_perm f l)

theorem mem_sortAsc_reverse (f : K × V → Nat) (l : List (K × V)) (p : K × V) :
    p ∈ (sortAsc f l).reverse ↔ p ∈ l :=
  (sortAsc_reverse_perm f l).mem_iff

theorem keysOf_sortAsc_reverse_nodup [DecidableEq K] (f : K × V → Nat) {l : List (K × V)}
    (h : NodupK l) : ((sortAsc f l).reverse.map Prod.fst).Nodup :=
  (((sortAsc_reverse_perm f l).map Prod.fst).nodup_iff).mpr h

end SortLemmas

/-! ## Lemmas about `move_to_disk` and `weightOf` -/

section MoveLemmas

variable {K V B : Type} [DecidableEq K]

@[simp] theorem weightOf_nil (cfg : Config K V B) : weightOf cfg [] = 0 := rfl

@[simp] theorem weightOf_cons (cfg : Config K V B) (a : K) (b : V) (t : List (K × V)) :
    weightOf cfg ((a, b) :: t) = cfg.nbytes b + weightOf cfg t := by
  simp [weightOf]

theorem weightOf_eraseKey'_add {cfg : Config K V B} {l : List (K × V)} {k : K} {v : V}
    (hn : NodupK l) (hl : lookup' l k = some v) :
    weightOf cfg (eraseKey' l k) + cfg.nbytes v = weightOf cfg l := by
  induction l with
  | nil => simp at hl
  | cons p t ih =>
    obtain ⟨a, b⟩ := p
    rw [NodupK_cons_iff] at hn
    rcases eq_or_ne a k with h | h
    · rw [lookup'_cons, if_pos h] at hl
      have hnot : k ∉ keysOf t := h ▸ hn.1
      rw [eraseKey'_cons, if_pos h, eraseKey'_of_not_mem hnot, weightOf_cons,
          Option.some_inj.mp hl]
      exact Nat.add_comm _ _
    · rw [lookup'_cons, if_neg h] at hl
      rw [eraseKey'_cons, if_neg h, weightOf_cons, weightOf_cons,
          Nat.add_assoc, ih hn.2 hl]

theorem move_to_disk_of_none {cfg : Config K V B} {s : Chest K V B} {k : K}
    (hl : lookup' s.inmem k = none) :
    move_to_disk cfg s k =
      ({ s with files := setFile s.files (cfg.toFilename k) none }, some Err.keyNotFound) := by
  simp [move_to_disk, hl]

theorem move_to_disk_of_dumpfail {cfg : Config K V B} {s : Chest K V B} {k : K} {v : V}
    (hl : lookup' s.inmem k = some v) (hd : cfg.dump v = none) :
    move_to_disk cfg s k =
      ({ s with files := setFile s.files (cfg.toFilename k) none }, some Err.dumpFailed) := by
  simp [move_to_disk, hl, hd]

theorem move_to_disk_of_some {cfg : Config K V B} {s : Chest K V B} {k : K} {v : V} {b : B}
    (hl : lookup' s.inmem k = some v) (hd : cfg.dump v = some b) :
    move_to_disk cfg s k =
      ({ s with
          files := setFile (setFile s.files (cfg.toFilename k) none) (cfg.toFilename k) (some b),
          inmem := eraseKey' s.inmem k }, none) := by
  simp [move_to_disk, hl, hd]

theorem move_keys_avail (cfg : Config K V B) (s : Chest K V B) (k : K) :
    (move_to_disk cfg s k).1.keys = s.keys ∧
    (move_to_disk cfg s k).1.availableMemory = s.availableMemory := by
  cases hl : lookup' s.inmem k with
  | none => rw [move_to_disk_of_none hl]; exact ⟨rfl, rfl⟩
  | some v =>
    cases hd : cfg.dump v with
    | none => rw [move_to_disk_of_dumpfail hl hd]; exact ⟨rfl, rfl⟩
    | some b => rw [move_to_disk_of_some hl hd]; exact ⟨rfl, rfl⟩

theorem move_err_inmem {cfg : Config K V B} {s s1 : Chest K V B} {k : K} {e : Err}
    (h : move_to_disk cfg s k = (s1, some e)) : s1.inmem = s.inmem := by
  cases hl : lookup' s.inmem k with
  | none =>
    rw [move_to_disk_of_none hl] at h
    injection h with h1 h2
    rw [← h1]
  | some v =>
    cases hd : cfg.dump v with
    | none =>
      rw [move_to_disk_of_dumpfail hl hd] at h
      injection h with h1 h2
      rw [← h1]
    | some b =>
      rw [move_to_disk_of_some hl hd] at h
      injection h with h1 h2
      exact absurd h2 (by simp)

theorem move_ok_parts {cfg : Config K V B} {s s1 : Chest K V B} {k : K}
    (h : move_to_disk cfg s k = (s1, none)) :
    ∃ v b, lookup' s.inmem k = some v ∧ cfg.dump v = some b ∧
      s1 = { s with
              files := setFile (setFile s.files (cfg.toFilename k) none)
                (cfg.toFilename k) (some b),
              inmem := eraseKey' s.inmem k } := by
  cases hl : lookup' s.inmem k with
  | none =>
    rw [move_to_disk_of_none hl] at h
    injection h with h1 h2
    exact absurd h2 (by simp)
  | some v =>
    cases hd : cfg.dump v with
    | none =>
      rw [move_to_disk_of_dumpfail hl hd] at h
      injection h with h1 h2
      exact absurd h2 (by simp)
    | some b =>
      rw [move_to_disk_of_some hl hd] at h
      injection h with h1 h2
      exact ⟨v, b, rfl, hd, h1.symm⟩

theorem move_ok_inmem {cfg : Config K V B} {s s1 : Chest K V B} {k : K}
    (h : move_to_disk cfg s k = (s1, none)) : s1.inmem = eraseKey' s.inmem k := by
  obtain ⟨v, b, hl, hd, hs⟩ := move_ok_parts h
  rw [hs]

theorem move_err_parts {cfg : Config K V B} {s s1 : Chest K V B} {k : K} {e : Err}
    (h : move_to_disk cfg s k = (s1, some e)) :
    s1 = { s with files := setFile s.files (cfg.toFilename k) none } ∧
      (e = Err.keyNotFound ∧ lookup' s.inmem k = none ∨
       e = Err.dumpFailed ∧ ∃ v, lookup' s.inmem k = some v ∧ cfg.dump v = none) := by
  cases hl : lookup' s.inmem k with
  | none =>
    rw [move_to_disk_of_none hl] at h
    injection h with h1 h2
    injection h2 with h2
    exact ⟨h1.symm, Or.inl ⟨h2.symm, rfl⟩⟩
  | some v =>
    cases hd : cfg.dump v with
    | none =>
      rw [move_to_disk_of_dumpfail hl hd] at h
      injection h with h1 h2
      injection h2 with h2
      exact ⟨h1.symm, Or.inr ⟨h2.symm, v, rfl, hd⟩⟩
    | some b =>
      rw [move_to_disk_of_some hl hd] at h
      injection h with h1 h2
      exact absurd h2 (by simp)

theorem move_files_ne {cfg : Config K V B} (s : Chest K V B) (k : K) {n : String}
    (hne : n ≠ cfg.toFilename k) :
    fileGet (move_to_disk cfg s k).1.files n = fileGet s.files n := by
  cases hl : lookup' s.inmem k with
  | none =>
    rw [move_to_disk_of_none hl]
    exact fileGet_setFile_ne _ _ hne
  | some v =>
    cases hd : cfg.dump v with
    | none =>
      rw [move_to_disk_of_dumpfail hl hd]
      exact fileGet_setFile_ne _ _ hne
    | some b =>
      rw [move_to_disk_of_some hl hd]
      show fileGet (setFile (setFile s.files (cfg.toFilename k) none)
        (cfg.toFilename k) (some b)) n = fileGet s.files n
      rw [fileGet_setFile_ne _ _ hne, fileGet_setFile_ne _ _ hne]

theorem move_files_self_exists (cfg : Config K V B) (s : Chest K V B) (k : K) :
    fileGet (move_to_disk cfg s k).1.files (cfg.toFilename k) ≠ none := by
  cases hl : lookup' s.inmem k with
  | none =>
    rw [move_to_disk_of_none hl]
    show fileGet (setFile s.files (cfg.toFilename k) none) (cfg.toFilename k) ≠ none
    rw [fileGet_setFile_self]
    simp
  | some v =>
    cases hd : cfg.dump v with
    | none =>
      rw [move_to_disk_of_dumpfail hl hd]
      show fileGet (setFile s.files (cfg.toFilename k) none) (cfg.toFilename k) ≠ none
      rw [fileGet_setFile_self]
      simp
    | some b =>
      rw [move_to_disk_of_some hl hd]
      show fileGet (setFile (setFile s.files (cfg.toFilename k) none)
        (cfg.toFilename k) (some b)) (cfg.toFilename k) ≠ none
      rw [fileGet_setFile_self]
      simp

end MoveLemmas

/-! ## Lemmas about `shrinkLoop` and `shrink` -/

section ShrinkLemmas

variable {K V B : Type} [DecidableEq K]

theorem shrinkLoop_keys_avail (cfg : Config K V B) (todo : List (K × V)) :
    ∀ (mem : Int) (s : Chest K V B),
      (shrinkLoop cfg todo mem s).1.keys = s.keys ∧
      (shrinkLoop cfg todo mem s).1.availableMemory = s.availableMemory := by
  induction todo with
  | nil => intro mem s; exact ⟨rfl, rfl⟩
  | cons p rest ih =>
    intro mem s
    obtain ⟨k, v⟩ := p
    rw [shrinkLoop]
    by_cases h : mem ≤ (s.availableMemory : Int)
    · rw [if_pos h]; exact ⟨rfl, rfl⟩
    · rw [if_neg h]
      rcases hmv : move_to_disk cfg s k with ⟨s1, e⟩
      have hk := (move_keys_avail cfg s k).1
      have ha := (move_keys_avail cfg s k).2
      rw [hmv] at hk ha
      cases e with
      | some e' => exact ⟨hk, ha⟩
      | none =>
        have := ih (mem - (cfg.nbytes v : Int)) s1
        exact ⟨this.1.trans hk, this.2.trans ha⟩

theorem shrinkLoop_nodup (cfg : Config K V B) (todo : List (K × V)) :
    ∀ (mem : Int) (s : Chest K V B), NodupK s.inmem →
      NodupK (shrinkLoop cfg todo mem s).1.inmem := by
  induction todo with
  | nil => intro mem s hn; exact hn
  | cons p rest ih =>
    intro mem s hn
    obtain ⟨k, v⟩ := p
    rw [shrinkLoop]
    by_cases h : mem ≤ (s.availableMemory : Int)
    · rw [if_pos h]; exact hn
    · rw [if_neg h]
      rcases hmv : move_to_disk cfg s k with ⟨s1, e⟩
      cases e with
      | some e' =>
        show NodupK s1.inmem
        rw [move_err_inmem hmv]
        exact hn
      | none =>
        refine ih _ s1 ?_
        rw [move_ok_inmem hmv]
        exact NodupK_eraseKey' k hn

theorem shrinkLoop_lookup_mono (cfg : Config K V B) (todo : List (K × V)) :
    ∀ (mem : Int) (s : Chest K V B) (k : K),
      lookup' (shrinkLoop cfg todo mem s).1.inmem k = lookup' s.inmem k ∨
      lookup' (shrinkLoop cfg todo mem s).1.inmem k = none := by
  induction todo with
  | nil => intro mem s k; exact Or.inl rfl
  | cons p rest ih =>
    intro mem s k0
    obtain ⟨k, v⟩ := p
    rw [shrinkLoop]
    by_cases h : mem ≤ (s.availableMemory : Int)
    · rw [if_pos h]; exact Or.inl rfl
    · rw [if_neg h]
      rcases hmv : move_to_disk cfg s k with ⟨s1, e⟩
      cases e with
      | some e' =>
        show lookup' s1.inmem k0 = lookup' s.inmem k0 ∨ lookup' s1.inmem k0 = none
        rw [move_err_inmem hmv]
        exact Or.inl rfl
      | none =>
        have hstep : lookup' s1.inmem k0 = lookup' s.inmem k0 ∨ lookup' s1.inmem k0 = none := by
          rw [move_ok_inmem hmv, lookup'_eraseKey']
          rcases eq_or_ne k0 k with h' | h'
          · rw [if_pos h']; exact Or.inr rfl
          · rw [if_neg h']; exact Or.inl rfl
        rcases ih (mem - (cfg.nbytes v : Int)) s1 k0 with h1 | h1
        · rcases hstep with h2 | h2
          · exact Or.inl (h1.trans h2)
          · exact Or.inr (h1.trans h2)
        · exact Or.inr h1

theorem shrinkLoop_files_ne (cfg : Config K V B) (todo : List (K × V)) :
    ∀ (mem : Int) (s : Chest K V B) (n : String),
      (∀ p ∈ todo, cfg.toFilename p.1 ≠ n) →
      fileGet (shrinkLoop cfg todo mem s).1.files n = fileGet s.files n := by
  induction todo with
  | nil => intro mem s n _; rfl
  | cons p rest ih =>
    intro mem s n hn
    obtain ⟨k, v⟩ := p
    rw [shrinkLoop]
    by_cases h : mem ≤ (s.availableMemory : Int)
    · rw [if_pos h]
    · rw [if_neg h]
      have hkn : n ≠ cfg.toFilename k :=
        fun hh => (hn (k, v) (List.mem_cons_self _ _)) hh.symm
      rcases hmv : move_to_disk cfg s k with ⟨s1, e⟩
      have hfiles : fileGet s1.files n = fileGet s.files n := by
        have := move_files_ne s k hkn
        rw [hmv] at this
        exact this
      cases e with
      | some e' =>
        exact hfiles
      | none =>
        refine (ih _ s1 n ?_).trans hfiles
        intro q hq
        exact hn q (List.mem_cons_of_mem _ hq)

theorem shrinkLoop_err (cfg : Config K V B) (todo : List (K × V)) :
    ∀ (mem : Int) (s s' : Chest K V B) (e : Err),
      (∀ p ∈ todo, lookup' s.inmem p.1 = some p.2) →
      (todo.map Prod.fst).Nodup →
      shrinkLoop cfg todo mem s = (s', some e) → e = Err.dumpFailed := by
  induction todo with
  | nil =>
    intro mem s s' e _ _ heq
    have heq2 : ((s : Chest K V B), (none : Option Err)) = (s', some e) := heq
    injection heq2 with h1 h2
    exact absurd h2 (by simp)
  | cons p rest ih =>
    intro mem s s' e hlk hnd heq
    obtain ⟨k, v⟩ := p
    have hnd2 : (k :: rest.map Prod.fst).Nodup := by
      rw [List.map_cons] at hnd
      exact hnd
    have hnd' := List.nodup_cons.mp hnd2
    rw [shrinkLoop] at heq
    by_cases h : mem ≤ (s.availableMemory : Int)
    · rw [if_pos h] at heq
      injection heq with h1 h2
      exact absurd h2 (by simp)
    · rw [if_neg h] at heq
      rcases hmv : move_to_disk cfg s k with ⟨s1, e0⟩
      cases e0 with
      | some e' =>
        rw [hmv] at heq
        have heq2 : ((s1 : Chest K V B), some e') = (s', some e) := heq
        injection heq2 with h1 h2
        injection h2 with h2
        obtain ⟨-, herr⟩ := move_err_parts hmv
        rcases herr with ⟨he, hnone⟩ | ⟨he, -⟩
        · rw [hlk (k, v) (List.mem_cons_self _ _)] at hnone
          exact absurd hnone (by simp)
        · rw [← h2, he]
      | none =>
        rw [hmv] at heq
        have heq2 : shrinkLoop cfg rest (mem - (cfg.nbytes v : Int)) s1 = (s', some e) := heq
        refine ih _ s1 s' e ?_ hnd'.2 heq2
        intro q hq
        have hqk : q.1 ≠ k := by
          intro h'
          exact hnd'.1 (h' ▸ List.mem_map_of_mem Prod.fst hq)
        rw [move_ok_inmem hmv, lookup'_eraseKey', if_neg hqk]
        exact hlk q (List.mem_cons_of_mem _ hq)

theorem shrinkLoop_track (cfg : Config K V B) (hInj : Function.Injective cfg.toFilename)
    (todo : List (K × V)) :
    ∀ (mem : Int) (s s' : Chest K V B),
      (∀ p ∈ todo, lookup' s.inmem p.1 = some p.2) →
      (todo.map Prod.fst).Nodup →
      shrinkLoop cfg todo mem s = (s', none) →
      ∀ (k0 : K) (v0 : V), lookup' s.inmem k0 = some v0 →
        (lookup' s'.inmem k0 = some v0 ∧
          fileGet s'.files (cfg.toFilename k0) = fileGet s.files (cfg.toFilename k0)) ∨
        (lookup' s'.inmem k0 = none ∧ ∃ b, cfg.dump v0 = some b ∧
          fileGet s'.files (cfg.toFilename k0) = some (some b)) := by
  induction todo with
  | nil =>
    intro mem s s' _ _ heq k0 v0 h0
    have heq2 : ((s : Chest K V B), (none : Option Err)) = (s', none) := heq
    injection heq2 with h1 h2
    rw [← h1]
    exact Or.inl ⟨h0, rfl⟩
  | cons p rest ih =>
    intro mem s s' hlk hnd heq k0 v0 h0
    obtain ⟨k, v⟩ := p
    have hnd2 : (k :: rest.map Prod.fst).Nodup := by
      rw [List.map_cons] at hnd
      exact hnd
    have hnd' := List.nodup_cons.mp hnd2
    rw [shrinkLoop] at heq
    by_cases h : mem ≤ (s.availableMemory : Int)
    · rw [if_pos h] at heq
      injection heq with h1 h2
      rw [← h1]
      exact Or.inl ⟨h0, rfl⟩
    · rw [if_neg h] at heq
      rcases hmv : move_to_disk cfg s k with ⟨s1, e0⟩
      cases e0 with
      | some e' =>
        rw [hmv] at heq
        have heq2 : ((s1 : Chest K V B), some e') = (s', none) := heq
        injection heq2 with h1 h2
        exact absurd h2 (by simp)
      | none =>
        rw [hmv] at heq
        have heq2 : shrinkLoop cfg rest (mem - (cfg.nbytes v : Int)) s1 = (s', none) := heq
        obtain ⟨v1, b1, hv1, hb1, hs1⟩ := move_ok_parts hmv
        have hv1v : v1 = v :=
          Option.some_inj.mp ((hv1.symm).trans (hlk (k, v) (List.mem_cons_self _ _)))
        rcases eq_or_ne k0 k with hk0 | hk0
        · -- the popped key itself: it is evicted here and its file survives the rest
          subst hk0
          have hv0v : v0 = v := by
            rw [h0] at hv1
            rw [← hv1v, Option.some_inj.mp hv1]
          have hl1 : lookup' s1.inmem k0 = none := by
            rw [move_ok_inmem hmv, lookup'_eraseKey', if_pos rfl]
          have hfile1 : fileGet s1.files (cfg.toFilename k0) = some (some b1) := by
            rw [hs1]
            exact fileGet_setFile_self _ _ _
          have hlfin : lookup' s'.inmem k0 = none := by
            rcases shrinkLoop_lookup_mono cfg rest (mem - (cfg.nbytes v : Int)) s1 k0 with hm | hm
            · rw [heq2] at hm
              rw [hm, hl1]
            · rw [heq2] at hm
              exact hm
          have hffin : fileGet s'.files (cfg.toFilename k0) = some (some b1) := by
            have hpres := shrinkLoop_files_ne cfg rest (mem - (cfg.nbytes v : Int)) s1
              (cfg.toFilename k0) ?_
            · rw [heq2] at hpres
              rw [hpres, hfile1]
            · intro q hq hq'
              exact hnd'.1 ((hInj hq') ▸ List.mem_map_of_mem Prod.fst hq)
          refine Or.inr ⟨hlfin, b1, ?_, hffin⟩
          rw [hv0v, ← hv1v, hb1]
        · -- a different key: its binding and its file survive this move untouched
          have h1 : lookup' s1.inmem k0 = some v0 := by
            rw [move_ok_inmem hmv, lookup'_eraseKey', if_neg hk0, h0]
          have hfiles1 : fileGet s1.files (cfg.toFilename k0) = fileGet s.files (cfg.toFilename k0) := by
            rw [hs1]
            show fileGet (setFile (setFile s.files (cfg.toFilename k) none)
              (cfg.toFilename k) (some b1)) (cfg.toFilename k0) = fileGet s.files (cfg.toFilename k0)
            rw [fileGet_setFile_ne _ _ (fun hh => hk0 (hInj hh)),
                fileGet_setFile_ne _ _ (fun hh => hk0 (hInj hh))]
          have hrest : ∀ q ∈ rest, lookup' s1.inmem q.1 = some q.2 := by
            intro q hq
            have hqk : q.1 ≠ k := by
              intro h'
              exact hnd'.1 (h' ▸ List.mem_map_of_mem Prod.fst hq)
            rw [move_ok_inmem hmv, lookup'_eraseKey', if_neg hqk]
            exact hlk q (List.mem_cons_of_mem _ hq)
          rcases ih _ s1 s' hrest hnd'.2 heq2 k0 v0 h1 with ⟨ha, hbf⟩ | hres
          · exact Or.inl ⟨ha, hbf.trans hfiles1⟩
          · exact Or.inr hres

theorem shrinkLoop_conv (cfg : Config K V B) (todo : List (K × V)) :
    ∀ (mem : Int) (s s' : Chest K V B),
      (∀ p ∈ todo, lookup' s.inmem p.1 = some p.2) →
      (todo.map Prod.fst).Nodup →
      NodupK s.inmem →
      mem = (weightOf cfg s.inmem : Int) →
      (∀ x ∈ keysOf s.inmem, x ∈ todo.map Prod.fst) →
      shrinkLoop cfg todo mem s = (s', none) →
      (weightOf cfg s'.inmem ≤ s'.availableMemory ∨ s'.inmem = []) := by
  induction todo with
  | nil =>
    intro mem s s' _ _ _ _ hcov heq
    have heq2 : ((s : Chest K V B), (none : Option Err)) = (s', none) := heq
    injection heq2 with h1 h2
    rw [← h1]
    refine Or.inr ?_
    have hkeys : keysOf s.inmem = [] := by
      rw [List.eq_nil_iff_forall_not_mem]
      intro x hx
      simpa using hcov x hx
    exact List.map_eq_nil_iff.mp hkeys
  | cons p rest ih =>
    intro mem s s' hlk hnd hmem hw hcov heq
    obtain ⟨k, v⟩ := p
    have hnd2 : (k :: rest.map Prod.fst).Nodup := by
      rw [List.map_cons] at hnd
      exact hnd
    have hnd' := List.nodup_cons.mp hnd2
    rw [shrinkLoop] at heq
    by_cases h : mem ≤ (s.availableMemory : Int)
    · rw [if_pos h] at heq
      injection heq with h1 h2
      rw [← h1]
      refine Or.inl ?_
      rw [hw] at h
      exact_mod_cast h
    · rw [if_neg h] at heq
      rcases hmv : move_to_disk cfg s k with ⟨s1, e0⟩
      cases e0 with
      | some e' =>
        rw [hmv] at heq
        have heq2 : ((s1 : Chest K V B), some e') = (s', none) := heq
        injection heq2 with h1 h2
        exact absurd h2 (by simp)
      | none =>
        rw [hmv] at heq
        have heq2 : shrinkLoop cfg rest (mem - (cfg.nbytes v : Int)) s1 = (s', none) := heq
        have hlkk : lookup' s.inmem k = some v := hlk (k, v) (List.mem_cons_self _ _)
        have hinm1 : s1.inmem = eraseKey' s.inmem k := move_ok_inmem hmv
        have hwadd : weightOf cfg s1.inmem + cfg.nbytes v = weightOf cfg s.inmem := by
          rw [hinm1]
          exact weightOf_eraseKey'_add hmem hlkk
        refine ih _ s1 s' ?_ hnd'.2 ?_ ?_ ?_ heq2
        · intro q hq
          have hqk : q.1 ≠ k := by
            intro h'
            exact hnd'.1 (h' ▸ List.mem_map_of_mem Prod.fst hq)
          rw [hinm1, lookup'_eraseKey', if_neg hqk]
          exact hlk q (List.mem_cons_of_mem _ hq)
        · rw [hinm1]
          exact NodupK_eraseKey' k hmem
        · rw [hw, ← hwadd]
          push_cast
          ring
        · intro x hx
          rw [hinm1, keysOf] at hx
          rw [← keysOf, mem_keysOf_eraseKey'] at hx
          have := hcov x hx.1
          rw [List.map_cons, List.mem_cons] at this
          rcases this with h' | h'
          · exact absurd h' hx.2
          · exact h'

/-- `shrink` unfolded (the `let` zeta-reduced). -/
theorem shrink_eq (cfg : Config K V B) (s : Chest K V B) :
    shrink cfg s =
      if memory_usage cfg s < s.availableMemory then (s, none)
      else shrinkLoop cfg (sortAsc (fun p => cfg.nbytes p.2) s.inmem).reverse
        ((memory_usage cfg s : Nat) : Int) s := rfl

theorem sorted_todo_lookup {cfg : Config K V B} {s : Chest K V B} (hn : NodupK s.inmem) :
    ∀ p ∈ (sortAsc (fun p => cfg.nbytes p.2) s.inmem).reverse,
      lookup' s.inmem p.1 = some p.2 := by
  intro p hp
  rw [mem_sortAsc_reverse] at hp
  obtain ⟨k, v⟩ := p
  exact lookup'_of_mem_nodup hn hp

theorem sorted_todo_cover {cfg : Config K V B} {s : Chest K V B} :
    ∀ x ∈ keysOf s.inmem,
      x ∈ ((sortAsc (fun p => cfg.nbytes p.2) s.inmem).reverse).map Prod.fst := by
  intro x hx
  obtain ⟨v, hv⟩ := mem_keysOf_iff.mp hx
  exact List.mem_map_of_mem Prod.fst ((mem_sortAsc_reverse _ _ _).mpr hv)

theorem shrink_keys_avail (cfg : Config K V B) (s : Chest K V B) :
    (shrink cfg s).1.keys = s.keys ∧
    (shrink cfg s).1.availableMemory = s.availableMemory := by
  rw [shrink_eq]
  by_cases h : memory_usage cfg s < s.availableMemory
  · rw [if_pos h]; exact ⟨rfl, rfl⟩
  · rw [if_neg h]
    exact shrinkLoop_keys_avail cfg _ _ s

theorem shrink_nodup (cfg : Config K V B) {s : Chest K V B} (hn : NodupK s.inmem) :
    NodupK (shrink cfg s).1.inmem := by
  rw [shrink_eq]
  by_cases h : memory_usage cfg s < s.availableMemory
  · rw [if_pos h]; exact hn
  · rw [if_neg h]
    exact shrinkLoop_nodup cfg _ _ s hn

theorem shrink_lookup_mono (cfg : Config K V B) (s : Chest K V B) (k : K) :
    lookup' (shrink cfg s).1.inmem k = lookup' s.inmem k ∨
    lookup' (shrink cfg s).1.inmem k = none := by
  rw [shrink_eq]
  by_cases h : memory_usage cfg s < s.availableMemory
  · rw [if_pos h]; exact Or.inl rfl
  · rw [if_neg h]
    exact shrinkLoop_lookup_mono cfg _ _ s k

theorem shrink_files_ne (cfg : Config K V B) (s : Chest K V B) {n : String}
    (hn : ∀ x ∈ keysOf s.inmem, cfg.toFilename x ≠ n) :
    fileGet (shrink cfg s).1.files n = fileGet s.files n := by
  rw [shrink_eq]
  by_cases h : memory_usage cfg s < s.availableMemory
  · rw [if_pos h]
  · rw [if_neg h]
    refine shrinkLoop_files_ne cfg _ _ s n ?_
    intro p hp
    rw [mem_sortAsc_reverse] at hp
    exact hn p.1 (List.mem_map_of_mem Prod.fst hp)

theorem shrink_err {cfg : Config K V B} {s s' : Chest K V B} {e : Err}
    (hn : NodupK s.inmem) (heq : shrink cfg s = (s', some e)) : e = Err.dumpFailed := by
  rw [shrink_eq] at heq
  by_cases h : memory_usage cfg s < s.availableMemory
  · rw [if_pos h] at heq
    injection heq with h1 h2
    exact absurd h2 (by simp)
  · rw [if_neg h] at heq
    exact shrinkLoop_err cfg _ _ s s' e (sorted_todo_lookup hn)
      (keysOf_sortAsc_reverse_nodup _ hn) heq

theorem shrink_track {cfg : Config K V B} (hInj : Function.Injective cfg.toFilename)
    {s s' : Chest K V B} (hn : NodupK s.inmem) (heq : shrink cfg s = (s', none)) :
    ∀ (k0 : K) (v0 : V), lookup' s.inmem k0 = some v0 →
      (lookup' s'.inmem k0 = some v0 ∧
        fileGet s'.files (cfg.toFilename k0) = fileGet s.files (cfg.toFilename k0)) ∨
      (lookup' s'.inmem k0 = none ∧ ∃ b, cfg.dump v0 = some b ∧
        fileGet s'.files (cfg.toFilename k0) = some (some b)) := by
  rw [shrink_eq] at heq
  by_cases h : memory_usage cfg s < s.availableMemory
  · rw [if_pos h] at heq
    injection heq with h1 h2
    intro k0 v0 h0
    rw [← h1]
    exact Or.inl ⟨h0, rfl⟩
  · rw [if_neg h] at heq
    exact shrinkLoop_track cfg hInj _ _ s s' (sorted_todo_lookup hn)
      (keysOf_sortAsc_reverse_nodup _ hn) heq

theorem shrink_conv {cfg : Config K V B} {s s' : Chest K V B}
    (hn : NodupK s.inmem) (heq : shrink cfg s = (s', none)) :
    weightOf cfg s'.inmem ≤ s'.availableMemory ∨ s'.inmem = [] := by
  rw [shrink_eq] at heq
  by_cases h : memory_usage cfg s < s.availableMemory
  · rw [if_pos h] at heq
    injection heq with h1 h2
    rw [← h1]
    exact Or.inl (Nat.le_of_lt h)
  · rw [if_neg h] at heq
    exact shrinkLoop_conv cfg _ _ s s' (sorted_todo_lookup hn)
      (keysOf_sortAsc_reverse_nodup _ hn) hn rfl sorted_todo_cover heq

theorem shrinkLoop_no_dumpfail (cfg : Config K V B) (hdump : ∀ v : V, cfg.dump v ≠ none)
    (todo : List (K × V)) :
    ∀ (mem : Int) (s s' : Chest K V B),
      (∀ p ∈ todo, lookup' s.inmem p.1 = some p.2) →
      (todo.map Prod.fst).Nodup →
      shrinkLoop cfg todo mem s ≠ (s', some Err.dumpFailed) := by
  induction todo with
  | nil =>
    intro mem s s' _ _ heq
    have heq2 : ((s : Chest K V B), (none : Option Err)) = (s', some Err.dumpFailed) := heq
    injection heq2 with h1 h2
    exact absurd h2 (by simp)
  | cons p rest ih =>
    intro mem s s' hlk hnd heq
    obtain ⟨k, v⟩ := p
    have hnd2 : (k :: rest.map Prod.fst).Nodup := by
      rw [List.map_cons] at hnd
      exact hnd
    have hnd' := List.nodup_cons.mp hnd2
    rw [shrinkLoop] at heq
    by_cases h : mem ≤ (s.availableMemory : Int)
    · rw [if_pos h] at heq
      injection heq with h1 h2
      exact absurd h2 (by simp)
    · rw [if_neg h] at heq
      rcases hmv : move_to_disk cfg s k with ⟨s1, e0⟩
      cases e0 with
      | some e' =>
        obtain ⟨-, herr⟩ := move_err_parts hmv
        rcases herr with ⟨-, hnone⟩ | ⟨-, v1, -, hd⟩
        · rw [hlk (k, v) (List.mem_cons_self _ _)] at hnone
          exact absurd hnone (by simp)
        · exact hdump v1 hd
      | none =>
        rw [hmv] at heq
        have heq2 : shrinkLoop cfg rest (mem - (cfg.nbytes v : Int)) s1 =
            (s', some Err.dumpFailed) := heq
        refine ih _ s1 s' ?_ hnd'.2 heq2
        intro q hq
        have hqk : q.1 ≠ k := by
          intro h'
          exact hnd'.1 (h' ▸ List.mem_map_of_mem Prod.fst hq)
        rw [move_ok_inmem hmv, lookup'_eraseKey', if_neg hqk]
        exact hlk q (List.mem_cons_of_mem _ hq)

/-- Under a total serializer, `shrink` always succeeds. -/
theorem shrink_total {cfg : Config K V B} (hdump : ∀ v : V, cfg.dump v ≠ none)
    {s : Chest K V B} (hn : NodupK s.inmem) :
    ∃ s', shrink cfg s = (s', none) := by
  rcases heq : shrink cfg s with ⟨s', e⟩
  cases e with
  | none => exact ⟨s', rfl⟩
  | some e' =>
    exfalso
    have he := shrink_err hn heq
    subst he
    rw [shrink_eq] at heq
    by_cases h : memory_usage cfg s < s.availableMemory
    · rw [if_pos h] at heq
      injection heq with h1 h2
      exact absurd h2 (by simp)
    · rw [if_neg h] at heq
      exact shrinkLoop_no_dumpfail cfg hdump _ _ s s' (sorted_todo_lookup hn)
        (keysOf_sortAsc_reverse_nodup _ hn) heq

end ShrinkLemmas

/-! ## `get_from_disk` characterizations and set-equivalence preservation -/

section GfdLemmas

variable {K V B : Type} [DecidableEq K]

theorem gfd_of_inmem {cfg : Config K V B} {s : Chest K V B} {k : K} {v : V}
    (hl : lookup' s.inmem k = some v) : get_from_disk cfg s k = (s, none) := by
  simp [get_from_disk, hl]

theorem gfd_of_nofile {cfg : Config K V B} {s : Chest K V B} {k : K}
    (hl : lookup' s.inmem k = none) (hf : fileGet s.files (cfg.toFilename k) = none) :
    get_from_disk cfg s k = (s, some Err.fileNotFound) := by
  simp [get_from_disk, hl, hf]

theorem gfd_of_corrupt {cfg : Config K V B} {s : Chest K V B} {k : K}
    (hl : lookup' s.inmem k = none) (hf : fileGet s.files (cfg.toFilename k) = some none) :
    get_from_disk cfg s k = (s, some Err.loadFailed) := by
  simp [get_from_disk, hl, hf]

theorem gfd_of_loadfail {cfg : Config K V B} {s : Chest K V B} {k : K} {b : B}
    (hl : lookup' s.inmem k = none) (hf : fileGet s.files (cfg.toFilename k) = some (some b))
    (hld : cfg.load b = none) : get_from_disk cfg s k = (s, some Err.loadFailed) := by
  simp [get_from_disk, hl, hf, hld]

theorem gfd_of_ok {cfg : Config K V B} {s : Chest K V B} {k : K} {b : B} {v : V}
    (hl : lookup' s.inmem k = none) (hf : fileGet s.files (cfg.toFilename k) = some (some b))
    (hld : cfg.load b = some v) :
    get_from_disk cfg s k = ({ s with inmem := insert' s.inmem k v }, none) := by
  simp [get_from_disk, hl, hf, hld]

/-- A failing `get_from_disk` mutates nothing; the error is never `KeyError`. -/
theorem gfd_err {cfg : Config K V B} {s s1 : Chest K V B} {k : K} {e : Err}
    (h : get_from_disk cfg s k = (s1, some e)) : s1 = s ∧ e ≠ Err.keyNotFound := by
  cases hl : lookup' s.inmem k with
  | some v =>
    rw [gfd_of_inmem hl] at h
    injection h with h1 h2
    exact absurd h2 (by simp)
  | none =>
    cases hf : fileGet s.files (cfg.toFilename k) with
    | none =>
      rw [gfd_of_nofile hl hf] at h
      injection h with h1 h2
      injection h2 with h2
      exact ⟨h1.symm, by rw [← h2]; simp⟩
    | some c =>
      cases c with
      | none =>
        rw [gfd_of_corrupt hl hf] at h
        injection h with h1 h2
        injection h2 with h2
        exact ⟨h1.symm, by rw [← h2]; simp⟩
      | some b =>
        cases hld : cfg.load b with
        | none =>
          rw [gfd_of_loadfail hl hf hld] at h
          injection h with h1 h2
          injection h2 with h2
          exact ⟨h1.symm, by rw [← h2]; simp⟩
        | some v =>
          rw [gfd_of_ok hl hf hld] at h
          injection h with h1 h2
          exact absurd h2 (by simp)

/-- A successful `get_from_disk` on a key not in memory caches the value. -/
theorem gfd_ok_parts {cfg : Config K V B} {s s1 : Chest K V B} {k : K}
    (hl : lookup' s.inmem k = none) (h : get_from_disk cfg s k = (s1, none)) :
    ∃ b v, fileGet s.files (cfg.toFilename k) = some (some b) ∧ cfg.load b = some v ∧
      s1 = { s with inmem := insert' s.inmem k v } := by
  cases hf : fileGet s.files (cfg.toFilename k) with
  | none =>
    rw [gfd_of_nofile hl hf] at h
    injection h with h1 h2
    exact absurd h2 (by simp)
  | some c =>
    cases c with
    | none =>
      rw [gfd_of_corrupt hl hf] at h
      injection h with h1 h2
      exact absurd h2 (by simp)
    | some b =>
      cases hld : cfg.load b with
      | none =>
        rw [gfd_of_loadfail hl hf hld] at h
        injection h with h1 h2
        exact absurd h2 (by simp)
      | some v =>
        rw [gfd_of_ok hl hf hld] at h
        injection h with h1 h2
        exact ⟨b, v, rfl, hld, h1.symm⟩

end GfdLemmas

section SetEquivLemmas

variable {K V B : Type} [DecidableEq K]

theorem move_setEquiv {cfg : Config K V B} (hInj : Function.Injective cfg.toFilename)
    {s : Chest K V B} {k : K} {v : V}
    (hl : lookup' s.inmem k = some v) (hse : SetEquiv cfg s) :
    SetEquiv cfg (move_to_disk cfg s k).1 := by
  have hkkeys : k ∈ s.keys := (hse k).mpr (Or.inl (by rw [hl]; simp))
  cases hd : cfg.dump v with
  | none =>
    rw [move_to_disk_of_dumpfail hl hd]
    intro x
    rcases eq_or_ne x k with hx | hx
    · subst hx
      constructor
      · intro _
        exact Or.inl (by rw [hl]; simp)
      · intro _
        exact hkkeys
    · show x ∈ s.keys ↔ lookup' s.inmem x ≠ none ∨
        fileGet (setFile s.files (cfg.toFilename k) none) (cfg.toFilename x) ≠ none
      rw [fileGet_setFile_ne _ _ (fun hh => hx (hInj hh))]
      exact hse x
  | some b =>
    rw [move_to_disk_of_some hl hd]
    intro x
    rcases eq_or_ne x k with hx | hx
    · subst hx
      constructor
      · intro _
        refine Or.inr ?_
        show fileGet (setFile (setFile s.files (cfg.toFilename x) none)
          (cfg.toFilename x) (some b)) (cfg.toFilename x) ≠ none
        rw [fileGet_setFile_self]
        simp
      · intro _
        exact hkkeys
    · show x ∈ s.keys ↔ lookup' (eraseKey' s.inmem k) x ≠ none ∨
        fileGet (setFile (setFile s.files (cfg.toFilename k) none)
          (cfg.toFilename k) (some b)) (cfg.toFilename x) ≠ none
      rw [lookup'_eraseKey', if_neg hx,
          fileGet_setFile_ne _ _ (fun hh => hx (hInj hh)),
          fileGet_setFile_ne _ _ (fun hh => hx (hInj hh))]
      exact hse x

theorem shrinkLoop_setEquiv (cfg : Config K V B) (hInj : Function.Injective cfg.toFilename)
    (todo : List (K × V)) :
    ∀ (mem : Int) (s : Chest K V B),
      (∀ p ∈ todo, lookup' s.inmem p.1 = some p.2) →
      (todo.map Prod.fst).Nodup →
      SetEquiv cfg s → SetEquiv cfg (shrinkLoop cfg todo mem s).1 := by
  induction todo with
  | nil => intro mem s _ _ hse; exact hse
  | cons p rest ih =>
    intro mem s hlk hnd hse
    obtain ⟨k, v⟩ := p
    have hnd2 : (k :: rest.map Prod.fst).Nodup := by
      rw [List.map_cons] at hnd
      exact hnd
    have hnd' := List.nodup_cons.mp hnd2
    rw [shrinkLoop]
    by_cases h : mem ≤ (s.availableMemory : Int)
    · rw [if_pos h]; exact hse
    · rw [if_neg h]
      have hmse := move_setEquiv hInj (hlk (k, v) (List.mem_cons_self _ _)) hse
      rcases hmv : move_to_disk cfg s k with ⟨s1, e0⟩
      rw [hmv] at hmse
      cases e0 with
      | some e' => exact hmse
      | none =>
        refine ih _ s1 ?_ hnd'.2 hmse
        intro q hq
        have hqk : q.1 ≠ k := by
          intro h'
          exact hnd'.1 (h' ▸ List.mem_map_of_mem Prod.fst hq)
        rw [move_ok_inmem hmv, lookup'_eraseKey', if_neg hqk]
        exact hlk q (List.mem_cons_of_mem _ hq)

theorem shrink_setEquiv {cfg : Config K V B} (hInj : Function.Injective cfg.toFilename)
    {s : Chest K V B} (hn : NodupK s.inmem) (hse : SetEquiv cfg s) :
    SetEquiv cfg (shrink cfg s).1 := by
  rw [shrink_eq]
  by_cases h : memory_usage cfg s < s.availableMemory
  · rw [if_pos h]; exact hse
  · rw [if_neg h]
    exact shrinkLoop_setEquiv cfg hInj _ _ s (sorted_todo_lookup hn)
      (keysOf_sortAsc_reverse_nodup _ hn) hse

end SetEquivLemmas

/-! ## Operation-level characterizations and `Wf` preservation -/

section OpLemmas

variable {K V B : Type} [DecidableEq K]

theorem delItem_eq (cfg : Config K V B) (s : Chest K V B) (k : K) :
    delItem cfg s k =
      if k ∈ s.keys then
        ({ inmem := eraseKey' s.inmem k, keys := eraseAllK s.keys k,
           files := removeFile s.files (cfg.toFilename k),
           availableMemory := s.availableMemory }, none)
      else
        ({ inmem := eraseKey' s.inmem k, keys := s.keys,
           files := removeFile s.files (cfg.toFilename k),
           availableMemory := s.availableMemory }, some Err.keyNotFound) := rfl

theorem setItem_of_mem {cfg : Config K V B} {s : Chest K V B} {k : K} (v : V)
    (hk : k ∈ s.keys) :
    setItem cfg s k v = shrink cfg
      { inmem := insert' (eraseKey' s.inmem k) k v,
        keys := insertKey (eraseAllK s.keys k) k,
        files := removeFile s.files (cfg.toFilename k),
        availableMemory := s.availableMemory } := by
  rw [setItem, if_pos hk, delItem_eq, if_pos hk]

theorem setItem_of_not_mem {cfg : Config K V B} {s : Chest K V B} {k : K} (v : V)
    (hk : k ∉ s.keys) :
    setItem cfg s k v = shrink cfg
      { inmem := insert' s.inmem k v,
        keys := insertKey s.keys k,
        files := s.files,
        availableMemory := s.availableMemory } := by
  rw [setItem, if_neg hk]

theorem delItem_wf {cfg : Config K V B} (hInj : Function.Injective cfg.toFilename)
    {s : Chest K V B} (k : K) (hwf : Wf cfg s) : Wf cfg (delItem cfg s k).1 := by
  obtain ⟨hn, hse⟩ := hwf
  rw [delItem_eq]
  by_cases hk : k ∈ s.keys
  · rw [if_pos hk]
    refine ⟨NodupK_eraseKey' k hn, ?_⟩
    intro x
    show x ∈ eraseAllK s.keys k ↔
      lookup' (eraseKey' s.inmem k) x ≠ none ∨
      fileGet (removeFile s.files (cfg.toFilename k)) (cfg.toFilename x) ≠ none
    rcases eq_or_ne x k with hx | hx
    · subst hx
      rw [lookup'_eraseKey', if_pos rfl, fileGet_removeFile_self]
      simp [mem_eraseAllK]
    · rw [mem_eraseAllK, lookup'_eraseKey', if_neg hx,
          fileGet_removeFile_ne _ (fun hh => hx (hInj hh))]
      constructor
      · rintro ⟨h1, -⟩
        exact (hse x).mp h1
      · intro h1
        exact ⟨(hse x).mpr h1, hx⟩
  · rw [if_neg hk]
    refine ⟨NodupK_eraseKey' k hn, ?_⟩
    intro x
    show x ∈ s.keys ↔
      lookup' (eraseKey' s.inmem k) x ≠ none ∨
      fileGet (removeFile s.files (cfg.toFilename k)) (cfg.toFilename x) ≠ none
    rcases eq_or_ne x k with hx | hx
    · subst hx
      rw [lookup'_eraseKey', if_pos rfl, fileGet_removeFile_self]
      simp [hk]
    · rw [lookup'_eraseKey', if_neg hx,
          fileGet_removeFile_ne _ (fun hh => hx (hInj hh))]
      exact hse x

theorem setItem_wf {cfg : Config K V B} (hInj : Function.Injective cfg.toFilename)
    {s : Chest K V B} (k : K) (v : V) (hwf : Wf cfg s) : Wf cfg (setItem cfg s k v).1 := by
  obtain ⟨hn, hse⟩ := hwf
  by_cases hk : k ∈ s.keys
  · rw [setItem_of_mem v hk]
    have hnodup : NodupK (insert' (eraseKey' s.inmem k) k v) :=
      NodupK_insert' k v (NodupK_eraseKey' k hn)
    refine ⟨shrink_nodup cfg hnodup, shrink_setEquiv hInj hnodup ?_⟩
    intro x
    show x ∈ insertKey (eraseAllK s.keys k) k ↔
      lookup' (insert' (eraseKey' s.inmem k) k v) x ≠ none ∨
      fileGet (removeFile s.files (cfg.toFilename k)) (cfg.toFilename x) ≠ none
    rcases eq_or_ne x k with hx | hx
    · subst hx
      rw [mem_insertKey, lookup'_insert', if_pos rfl]
      simp
    · rw [mem_insertKey, mem_eraseAllK, lookup'_insert', if_neg hx,
          lookup'_eraseKey', if_neg hx,
          fileGet_removeFile_ne _ (fun hh => hx (hInj hh))]
      constructor
      · rintro (⟨h1, -⟩ | h1)
        · exact (hse x).mp h1
        · exact absurd h1 hx
      · intro h1
        exact Or.inl ⟨(hse x).mpr h1, hx⟩
  · rw [setItem_of_not_mem v hk]
    have hnodup : NodupK (insert' s.inmem k v) := NodupK_insert' k v hn
    refine ⟨shrink_nodup cfg hnodup, shrink_setEquiv hInj hnodup ?_⟩
    intro x
    show x ∈ insertKey s.keys k ↔
      lookup' (insert' s.inmem k v) x ≠ none ∨
      fileGet s.files (cfg.toFilename x) ≠ none
    rcases eq_or_ne x k with hx | hx
    · subst hx
      rw [mem_insertKey, lookup'_insert', if_pos rfl]
      simp
    · rw [mem_insertKey, lookup'_insert', if_neg hx]
      constructor
      · rintro (h1 | h1)
        · exact (hse x).mp h1
        · exact absurd h1 hx
      · intro h1
        exact Or.inl ((hse x).mpr h1)

theorem getItem_of_inmem {cfg : Config K V B} {s : Chest K V B} {k : K} {v : V}
    (hl : lookup' s.inmem k = some v) : getItem cfg s k = (s, Except.ok v) := by
  simp [getItem, hl]

theorem getItem_of_untracked {cfg : Config K V B} {s : Chest K V B} {k : K}
    (hl : lookup' s.inmem k = none) (hk : k ∉ s.keys) :
    getItem cfg s k = (s, Except.error Err.keyNotFound) := by
  simp [getItem, hl, hk]

theorem getItem_disk_err {cfg : Config K V B} {s s1 : Chest K V B} {k : K} {e : Err}
    (hl : lookup' s.inmem k = none) (hk : k ∈ s.keys)
    (hg : get_from_disk cfg s k = (s1, some e)) :
    getItem cfg s k = (s1, Except.error e) := by
  simp [getItem, hl, hk, hg]

theorem getItem_disk_lost {cfg : Config K V B} {s s1 : Chest K V B} {k : K}
    (hl : lookup' s.inmem k = none) (hk : k ∈ s.keys)
    (hg : get_from_disk cfg s k = (s1, none)) (hl1 : lookup' s1.inmem k = none) :
    getItem cfg s k = (s1, Except.error Err.keyNotFound) := by
  simp [getItem, hl, hk, hg, hl1]

theorem getItem_disk_shrink_err {cfg : Config K V B} {s s1 s2 : Chest K V B} {k : K}
    {v : V} {e : Err}
    (hl : lookup' s.inmem k = none) (hk : k ∈ s.keys)
    (hg : get_from_disk cfg s k = (s1, none)) (hl1 : lookup' s1.inmem k = some v)
    (hsh : shrink cfg s1 = (s2, some e)) :
    getItem cfg s k = (s2, Except.error e) := by
  simp [getItem, hl, hk, hg, hl1, hsh]

theorem getItem_disk_shrink_ok {cfg : Config K V B} {s s1 s2 : Chest K V B} {k : K}
    {v : V}
    (hl : lookup' s.inmem k = none) (hk : k ∈ s.keys)
    (hg : get_from_disk cfg s k = (s1, none)) (hl1 : lookup' s1.inmem k = some v)
    (hsh : shrink cfg s1 = (s2, none)) :
    getItem cfg s k = (s2, Except.ok v) := by
  simp [getItem, hl, hk, hg, hl1, hsh]

theorem getItem_wf {cfg : Config K V B} (hInj : Function.Injective cfg.toFilename)
    {s : Chest K V B} (k : K) (hwf : Wf cfg s) : Wf cfg (getItem cfg s k).1 := by
  obtain ⟨hn, hse⟩ := hwf
  cases hl : lookup' s.inmem k with
  | some v => rw [getItem_of_inmem hl]; exact ⟨hn, hse⟩
  | none =>
    by_cases hk : k ∈ s.keys
    · rcases hg : get_from_disk cfg s k with ⟨s1, e0⟩
      cases e0 with
      | some e' =>
        rw [getItem_disk_err hl hk hg]
        have hs1 := (gfd_err hg).1
        subst hs1
        exact ⟨hn, hse⟩
      | none =>
        obtain ⟨b, v, hf, hld, hs1⟩ := gfd_ok_parts hl hg
        have hn1 : NodupK s1.inmem := by
          rw [hs1]
          exact NodupK_insert' k v hn
        have hse1 : SetEquiv cfg s1 := by
          rw [hs1]
          intro x
          show x ∈ s.keys ↔ lookup' (insert' s.inmem k v) x ≠ none ∨
            fileGet s.files (cfg.toFilename x) ≠ none
          rcases eq_or_ne x k with hx | hx
          · subst hx
            rw [lookup'_insert', if_pos rfl]
            simp [hk]
          · rw [lookup'_insert', if_neg hx]
            exact hse x
        cases hl1 : lookup' s1.inmem k with
        | none =>
          rw [getItem_disk_lost hl hk hg hl1]
          exact ⟨hn1, hse1⟩
        | some v' =>
          rcases hsh : shrink cfg s1 with ⟨s2, e1⟩
          have hker := shrink_setEquiv hInj hn1 hse1
          have hner := shrink_nodup cfg hn1
          rw [hsh] at hker hner
          cases e1 with
          | some e' =>
            rw [getItem_disk_shrink_err hl hk hg hl1 hsh]
            exact ⟨hner, hker⟩
          | none =>
            rw [getItem_disk_shrink_ok hl hk hg hl1 hsh]
            exact ⟨hner, hker⟩
    · rw [getItem_of_untracked hl hk]
      exact ⟨hn, hse⟩

theorem write_keys_eq_fail {cfg : Config K V B} {s : Chest K V B}
    (hd : cfg.dumpKeys s.keys = none) :
    write_keys cfg s =
      ({ s with files := setFile s.files ".keys" none }, some Err.dumpFailed) := by
  simp [write_keys, hd]

theorem write_keys_eq_ok {cfg : Config K V B} {s : Chest K V B} {b : B}
    (hd : cfg.dumpKeys s.keys = some b) :
    write_keys cfg s =
      ({ s with files := setFile (setFile s.files ".keys" none) ".keys" (some b) }, none) := by
  simp [write_keys, hd]

theorem write_keys_wf {cfg : Config K V B}
    (hkeys : ∀ k : K, cfg.toFilename k ≠ ".keys")
    {s : Chest K V B} (hwf : Wf cfg s) : Wf cfg (write_keys cfg s).1 := by
  obtain ⟨hn, hse⟩ := hwf
  cases hd : cfg.dumpKeys s.keys with
  | none =>
    rw [write_keys_eq_fail hd]
    refine ⟨hn, ?_⟩
    intro x
    show x ∈ s.keys ↔ lookup' s.inmem x ≠ none ∨
      fileGet (setFile s.files ".keys" none) (cfg.toFilename x) ≠ none
    rw [fileGet_setFile_ne _ _ (hkeys x)]
    exact hse x
  | some b =>
    rw [write_keys_eq_ok hd]
    refine ⟨hn, ?_⟩
    intro x
    show x ∈ s.keys ↔ lookup' s.inmem x ≠ none ∨
      fileGet (setFile (setFile s.files ".keys" none) ".keys" (some b))
        (cfg.toFilename x) ≠ none
    rw [fileGet_setFile_ne _ _ (hkeys x), fileGet_setFile_ne _ _ (hkeys x)]
    exact hse x

theorem flushLoop_wf {cfg : Config K V B} (hInj : Function.Injective cfg.toFilename)
    (todo : List K) :
    ∀ s : Chest K V B, (∀ x ∈ todo, lookup' s.inmem x ≠ none) → todo.Nodup →
      Wf cfg s → Wf cfg (flushLoop cfg todo s).1 := by
  induction todo with
  | nil => intro s _ _ hwf; exact hwf
  | cons k rest ih =>
    intro s hlk hnd hwf
    rw [flushLoop]
    obtain ⟨v, hv⟩ := Option.ne_none_iff_exists'.mp (hlk k (List.mem_cons_self _ _))
    have hmse := move_setEquiv hInj hv hwf.2
    rcases hmv : move_to_disk cfg s k with ⟨s1, e0⟩
    rw [hmv] at hmse
    have hnd' := List.nodup_cons.mp hnd
    cases e0 with
    | some e' =>
      refine ⟨?_, hmse⟩
      show NodupK s1.inmem
      rw [move_err_inmem hmv]
      exact hwf.1
    | none =>
      refine ih s1 ?_ hnd'.2 ⟨?_, hmse⟩
      · intro x hx
        rw [move_ok_inmem hmv, lookup'_eraseKey', if_neg (fun hh : x = k => hnd'.1 (hh ▸ hx))]
        exact hlk x (List.mem_cons_of_mem _ hx)
      · rw [move_ok_inmem hmv]
        exact NodupK_eraseKey' k hwf.1

theorem flush_wf {cfg : Config K V B} (hInj : Function.Injective cfg.toFilename)
    (hkeys : ∀ k : K, cfg.toFilename k ≠ ".keys")
    {s : Chest K V B} (hwf : Wf cfg s) : Wf cfg (flushChest cfg s).1 := by
  have hwf1 := flushLoop_wf hInj (keysOf s.inmem) s
    (fun x hx => (lookup'_isSome_iff _ _).mpr hx) hwf.1 hwf
  simp only [flushChest]
  rcases hfl : flushLoop cfg (keysOf s.inmem) s with ⟨s1, e0⟩
  rw [hfl] at hwf1
  cases e0 with
  | some e' => exact hwf1
  | none => exact write_keys_wf hkeys hwf1

theorem fresh_wf (cfg : Config K V B) (am : Nat) : Wf cfg (freshChest am : Chest K V B) := by
  constructor
  · simp [freshChest]
  · intro k
    simp [freshChest, SetEquiv]

theorem reachable_wf {cfg : Config K V B} (hInj : Function.Injective cfg.toFilename)
    (hkeys : ∀ k : K, cfg.toFilename k ≠ ".keys") {s : Chest K V B}
    (hr : Reachable cfg s) : Wf cfg s := by
  induction hr with
  | init am => exact fresh_wf cfg am
  | set k v _ ih => exact setItem_wf hInj k v ih
  | get k _ ih => exact getItem_wf hInj k ih
  | del k _ ih => exact delItem_wf hInj k ih
  | flushed _ ih => exact flush_wf hInj hkeys ih

end OpLemmas

/-! ## Lemmas about `flushLoop` and `flushChest` -/

section FlushLemmas

variable {K V B : Type} [DecidableEq K]

theorem flushLoop_keys_avail (cfg : Config K V B) (todo : List K) :
    ∀ s : Chest K V B,
      (flushLoop cfg todo s).1.keys = s.keys ∧
      (flushLoop cfg todo s).1.availableMemory = s.availableMemory := by
  induction todo with
  | nil => intro s; exact ⟨rfl, rfl⟩
  | cons k rest ih =>
    intro s
    rw [flushLoop]
    rcases hmv : move_to_disk cfg s k with ⟨s1, e0⟩
    have hk := (move_keys_avail cfg s k).1
    have ha := (move_keys_avail cfg s k).2
    rw [hmv] at hk ha
    cases e0 with
    | some e' => exact ⟨hk, ha⟩
    | none =>
      have := ih s1
      exact ⟨this.1.trans hk, this.2.trans ha⟩

theorem flushLoop_drains (cfg : Config K V B) (todo : List K) :
    ∀ (s s' : Chest K V B), flushLoop cfg todo s = (s', none) →
      ∀ x : K, lookup' s'.inmem x = none ∨
        (lookup' s'.inmem x = lookup' s.inmem x ∧ x ∉ todo) := by
  induction todo with
  | nil =>
    intro s s' heq x
    have heq2 : ((s : Chest K V B), (none : Option Err)) = (s', none) := heq
    injection heq2 with h1 h2
    rw [← h1]
    exact Or.inr ⟨rfl, List.not_mem_nil x⟩
  | cons k rest ih =>
    intro s s' heq x
    rw [flushLoop] at heq
    rcases hmv : move_to_disk cfg s k with ⟨s1, e0⟩
    rw [hmv] at heq
    cases e0 with
    | some e' =>
      have heq2 : ((s1 : Chest K V B), some e') = (s', none) := heq
      injection heq2 with h1 h2
      exact absurd h2 (by simp)
    | none =>
      have heq2 : flushLoop cfg rest s1 = (s', none) := heq
      rcases ih s1 s' heq2 x with h1 | ⟨h1, h2⟩
      · exact Or.inl h1
      · rcases eq_or_ne x k with hx | hx
        · subst hx
          rw [h1, move_ok_inmem hmv, lookup'_eraseKey', if_pos rfl]
          exact Or.inl rfl
        · rw [h1, move_ok_inmem hmv, lookup'_eraseKey', if_neg hx]
          refine Or.inr ⟨rfl, ?_⟩
          rw [List.mem_cons]
          rintro (h3 | h3)
          · exact hx h3
          · exact h2 h3

theorem flushLoop_files_grow (cfg : Config K V B) (todo : List K) :
    ∀ (s s' : Chest K V B), flushLoop cfg todo s = (s', none) →
      ∀ n : String, fileGet s'.files n = fileGet s.files n ∨
        ∃ b, fileGet s'.files n = some (some b) := by
  induction todo with
  | nil =>
    intro s s' heq n
    have heq2 : ((s : Chest K V B), (none : Option Err)) = (s', none) := heq
    injection heq2 with h1 h2
    rw [← h1]
    exact Or.inl rfl
  | cons k rest ih =>
    intro s s' heq n
    rw [flushLoop] at heq
    rcases hmv : move_to_disk cfg s k with ⟨s1, e0⟩
    rw [hmv] at heq
    cases e0 with
    | some e' =>
      have heq2 : ((s1 : Chest K V B), some e') = (s', none) := heq
      injection heq2 with h1 h2
      exact absurd h2 (by simp)
    | none =>
      have heq2 : flushLoop cfg rest s1 = (s', none) := heq
      obtain ⟨v, b, hv, hb, hs1⟩ := move_ok_parts hmv
      rcases eq_or_ne n (cfg.toFilename k) with hn | hn
      · have h1 : fileGet s1.files n = some (some b) := by
          rw [hs1, hn]
          exact fileGet_setFile_self _ _ _
        rcases ih s1 s' heq2 n with h2 | ⟨b', h2⟩
        · exact Or.inr ⟨b, h2.trans h1⟩
        · exact Or.inr ⟨b', h2⟩
      · have h1 : fileGet s1.files n = fileGet s.files n := by
          rw [hs1]
          show fileGet (setFile (setFile s.files (cfg.toFilename k) none)
            (cfg.toFilename k) (some b)) n = fileGet s.files n
          rw [fileGet_setFile_ne _ _ hn, fileGet_setFile_ne _ _ hn]
        rcases ih s1 s' heq2 n with h2 | ⟨b', h2⟩
        · exact Or.inl (h2.trans h1)
        · exact Or.inr ⟨b', h2⟩

theorem flushLoop_files_exist (cfg : Config K V B) (todo : List K) :
    ∀ (s s' : Chest K V B), flushLoop cfg todo s = (s', none) →
      ∀ k ∈ todo, ∃ b, fileGet s'.files (cfg.toFilename k) = some (some b) := by
  induction todo with
  | nil =>
    intro s s' _ k hk
    exact absurd hk (List.not_mem_nil k)
  | cons k0 rest ih =>
    intro s s' heq k hk
    rw [flushLoop] at heq
    rcases hmv : move_to_disk cfg s k0 with ⟨s1, e0⟩
    rw [hmv] at heq
    cases e0 with
    | some e' =>
      have heq2 : ((s1 : Chest K V B), some e') = (s', none) := heq
      injection heq2 with h1 h2
      exact absurd h2 (by simp)
    | none =>
      have heq2 : flushLoop cfg rest s1 = (s', none) := heq
      rw [List.mem_cons] at hk
      rcases hk with hk | hk
      · subst hk
        obtain ⟨v, b, hv, hb, hs1⟩ := move_ok_parts hmv
        have h1 : fileGet s1.files (cfg.toFilename k) = some (some b) := by
          rw [hs1]
          exact fileGet_setFile_self _ _ _
        rcases flushLoop_files_grow cfg rest s1 s' heq2 (cfg.toFilename k)
          with h2 | ⟨b', h2⟩
        · exact ⟨b, h2.trans h1⟩
        · exact ⟨b', h2⟩
      · exact ih s1 s' heq2 k hk

theorem flushChest_ok_parts {cfg : Config K V B} {s s1 : Chest K V B}
    (h : flushChest cfg s = (s1, none)) :
    ∃ (smid : Chest K V B) (b : B),
      flushLoop cfg (keysOf s.inmem) s = (smid, none) ∧
      cfg.dumpKeys smid.keys = some b ∧
      s1 = { smid with files := setFile (setFile smid.files ".keys" none) ".keys" (some b) } := by
  rw [flushChest] at h
  rcases hfl : flushLoop cfg (keysOf s.inmem) s with ⟨smid, e0⟩
  rw [hfl] at h
  cases e0 with
  | some e' =>
    have h2 : ((smid : Chest K V B), some e') = (s1, none) := h
    injection h2 with h2a h2b
    exact absurd h2b (by simp)
  | none =>
    have h2 : write_keys cfg smid = (s1, none) := h
    cases hd : cfg.dumpKeys smid.keys with
    | none =>
      rw [write_keys_eq_fail hd] at h2
      injection h2 with h2a h2b
      exact absurd h2b (by simp)
    | some b =>
      rw [write_keys_eq_ok hd] at h2
      injection h2 with h2a h2b
      exact ⟨smid, b, rfl, hd, h2a.symm⟩

end FlushLemmas

/-! ## Lemmas about the default filename mapping -/

section FilenameLemmas

@[simp] theorem identTail_nil : identTail [] = true := rfl

@[simp] theorem identTail_single (c : Char) : identTail [c] = (isNl c || isWordChar c) := rfl

@[simp] theorem identTail_cons_cons (c1 c2 : Char) (rest : List Char) :
    identTail (c1 :: c2 :: rest) = (isWordChar c1 && identTail (c2 :: rest)) := rfl

@[simp] theorem lastIsNl_nil : lastIsNl [] = false := rfl

@[simp] theorem lastIsNl_single (c : Char) : lastIsNl [c] = isNl c := rfl

@[simp] theorem lastIsNl_cons_cons (c1 c2 : Char) (rest : List Char) :
    lastIsNl (c1 :: c2 :: rest) = lastIsNl (c2 :: rest) := by
  simp [lastIsNl, List.getLast?_cons_cons]

theorem identTail_eq (l : List Char) :
    identTail l = (l.all isWordChar || (lastIsNl l && l.dropLast.all isWordChar)) := by
  induction l with
  | nil => rfl
  | cons c1 t ih =>
    cases t with
    | nil =>
      rw [identTail_single, lastIsNl_single]
      simp [Bool.or_comm]
    | cons c2 rest =>
      rw [identTail_cons_cons, ih, lastIsNl_cons_cons, List.dropLast_cons₂]
      cases hw : isWordChar c1 <;>
        cases ha : (c2 :: rest).all isWordChar <;>
        cases hl : lastIsNl (c2 :: rest) <;>
        cases hd : (c2 :: rest).dropLast.all isWordChar <;>
        simp [hw, ha, hl, hd]

@[simp] theorem specIdentCore_nil : specIdentCore [] = false := rfl

@[simp] theorem specIdentCore_cons (c : Char) (rest : List Char) :
    specIdentCore (c :: rest) = (isIdentStart c && rest.all isWordChar) := rfl

theorem reMatchIdent_eq_spec (s : String) :
    reMatchIdent s =
      (specIdentCore s.data || (lastIsNl s.data && specIdentCore s.data.dropLast)) := by
  rw [reMatchIdent]
  cases hd : s.data with
  | nil => simp
  | cons c rest =>
    show (isIdentStart c && identTail rest) =
      (specIdentCore (c :: rest) || (lastIsNl (c :: rest) && specIdentCore ((c :: rest).dropLast)))
    cases rest with
    | nil =>
      rw [identTail_nil, lastIsNl_single, List.dropLast_single]
      cases hi : isIdentStart c <;> simp [hi]
    | cons c2 rest2 =>
      rw [identTail_eq, lastIsNl_cons_cons, List.dropLast_cons₂]
      simp only [specIdentCore_cons, List.all_cons]
      cases hi : isIdentStart c <;>
        cases ha : isWordChar c2 && rest2.all isWordChar <;>
        cases hl : lastIsNl (c2 :: rest2) <;>
        cases hdl : (c2 :: rest2).dropLast.all isWordChar <;>
        simp [hi, ha, hl, hdl]

end FilenameLemmas

/-! ## Helper results used directly by the claim theorems -/

section ClaimHelpers

variable {K V B : Type} [DecidableEq K]

/-- `__getitem__` raises `KeyError` exactly when the key is neither in the
in-memory dict nor in the key set. -/
theorem getItem_kNF_iff {cfg : Config K V B} {s : Chest K V B} {k : K}
    (hn : NodupK s.inmem) :
    (getItem cfg s k).2 = Except.error Err.keyNotFound ↔
      (lookup' s.inmem k = none ∧ k ∉ s.keys) := by
  cases hl : lookup' s.inmem k with
  | some v =>
    rw [getItem_of_inmem hl]
    simp
  | none =>
    by_cases hk : k ∈ s.keys
    · constructor
      · intro h
        exfalso
        rcases hg : get_from_disk cfg s k with ⟨s1, e0⟩
        cases e0 with
        | some e' =>
          rw [getItem_disk_err hl hk hg] at h
          have h2 : (Except.error e' : Except Err V) = Except.error Err.keyNotFound := h
          injection h2 with h2
          exact (gfd_err hg).2 h2
        | none =>
          obtain ⟨b, v, hf, hld, hs1⟩ := gfd_ok_parts hl hg
          have hl1 : lookup' s1.inmem k = some v := by
            rw [hs1]
            show lookup' (insert' s.inmem k v) k = some v
            rw [lookup'_insert', if_pos rfl]
          rcases hsh : shrink cfg s1 with ⟨s2, e1⟩
          cases e1 with
          | some e2 =>
            rw [getItem_disk_shrink_err hl hk hg hl1 hsh] at h
            have h2 : (Except.error e2 : Except Err V) = Except.error Err.keyNotFound := h
            injection h2 with h2
            have hn1 : NodupK s1.inmem := by
              rw [hs1]
              exact NodupK_insert' k v hn
            have h3 := shrink_err hn1 hsh
            rw [h2] at h3
            exact absurd h3 (by simp)
          | none =>
            rw [getItem_disk_shrink_ok hl hk hg hl1 hsh] at h
            have h2 : (Except.ok v : Except Err V) = Except.error Err.keyNotFound := h
            exact absurd h2 (by simp)
      · rintro ⟨-, hk2⟩
        exact absurd hk hk2
    · rw [getItem_of_untracked hl hk]
      simp [hl, hk]

/-- After a successful `shrink` of a well-formed pre-state holding `k ↦ v`,
`__getitem__ k` succeeds and returns `v` (the heart of the round trip). -/
theorem write_then_read_core {cfg : Config K V B}
    (hInj : Function.Injective cfg.toFilename)
    (hTot : ∀ v : V, cfg.dump v ≠ none)
    (hInv : ∀ (v : V) (b : B), cfg.dump v = some b → cfg.load b = some v)
    (spre : Chest K V B) {k : K} {v : V}
    (hnpre : NodupK spre.inmem) (hkpre : k ∈ spre.keys)
    (hlpre : lookup' spre.inmem k = some v) :
    ∃ s1 s2, shrink cfg spre = (s1, none) ∧ getItem cfg s1 k = (s2, Except.ok v) := by
  obtain ⟨s1, hsh⟩ := shrink_total hTot hnpre
  have hkeys : s1.keys = spre.keys := by
    have h := (shrink_keys_avail cfg spre).1
    rw [hsh] at h
    exact h
  have hk1 : k ∈ s1.keys := by
    rw [hkeys]
    exact hkpre
  have hn1 : NodupK s1.inmem := by
    have h := shrink_nodup cfg hnpre
    rw [hsh] at h
    exact h
  rcases shrink_track hInj hnpre hsh k v hlpre with ⟨h1, -⟩ | ⟨h1, b, hb, hfile⟩
  · exact ⟨s1, s1, hsh, by rw [getItem_of_inmem h1]⟩
  · have hload := hInv v b hb
    have hgfd := gfd_of_ok h1 hfile hload
    have hl1' : lookup' ({ s1 with inmem := insert' s1.inmem k v } : Chest K V B).inmem k
        = some v := by
      show lookup' (insert' s1.inmem k v) k = some v
      rw [lookup'_insert', if_pos rfl]
    have hn1' : NodupK (insert' s1.inmem k v) := NodupK_insert' k v hn1
    obtain ⟨s2, hsh2⟩ :=
      shrink_total hTot (s := { s1 with inmem := insert' s1.inmem k v }) hn1'
    exact ⟨s1, s2, hsh, by rw [getItem_disk_shrink_ok h1 hk1 hgfd hl1' hsh2]⟩

end ClaimHelpers

/-! ## The claims -/

section Claims

variable {K V B : Type}

/-- C1 (amended): for a store built from a fresh empty construction under an
injective key-to-filename map that avoids the manifest name, at every
caller-observable point the Key Set equals the union of the in-memory keys
and the keys whose backing file exists on disk.  (The claim's strict mutual
exclusion fails: a read loads a key into memory without deleting its file —
see the counterexample.) -/
theorem c1_set_equivalence [DecidableEq K] (cfg : Config K V B)
    (hInj : Function.Injective cfg.toFilename)
    (hman : ∀ k : K, cfg.toFilename k ≠ ".keys")
    {s : Chest K V B} (hr : Reachable cfg s) :
    ∀ k : K, k ∈ s.keys ↔
      (lookup' s.inmem k ≠ none ∨ fileGet s.files (cfg.toFilename k) ≠ none) :=
  (reachable_wf hInj hman hr).2

/-- Witness for C1 at a concrete reachable store. -/
theorem c1_witness :
    Function.Injective cfgW.toFilename ∧ (∀ k : Bool, cfgW.toFilename k ≠ ".keys") ∧
    ∀ k : Bool, k ∈ exS4.keys ↔
      (lookup' exS4.inmem k ≠ none ∨ fileGet exS4.files (cfgW.toFilename k) ≠ none) :=
  ⟨by decide, by decide,
   c1_set_equivalence cfgW (by decide) (by decide)
     (Reachable.get false (Reachable.del true (Reachable.set false 6
       (Reachable.set true 6 (Reachable.init 10)))))⟩

/-- Counterexample to C1 as stated: after a read loads `false` from disk the
key is resident in memory AND its backing file still exists, in a reachable
store — a live key in both partitions at a caller-observable point. -/
theorem c1_counterexample :
    Reachable cfgW exS4 ∧
    (getItem cfgW exS3 false).2 = Except.ok 6 ∧
    lookup' exS4.inmem false = some 6 ∧
    fileGet exS4.files (cfgW.toFilename false) ≠ none ∧
    false ∈ exS4.keys :=
  ⟨Reachable.get false (Reachable.del true (Reachable.set false 6
      (Reachable.set true 6 (Reachable.init 10)))),
   rfl, rfl, by decide, by decide⟩

/-- C2 (code bug): the constructor stores the `data` seed in the In-Memory
Partition but leaves the Key Set empty, so a seeded key is in memory yet
not tracked — `len`, `in` and `keys()` miss it, violating the stated
invariant.  This theorem evaluates the constructor at the failing input. -/
theorem c2_seed_key_untracked :
    (initChest cfgW [(true, 5)] [] 10).2 = none ∧
    lookup' (initChest cfgW [(true, 5)] [] 10).1.inmem true = some 5 ∧
    true ∉ (initChest cfgW [(true, 5)] [] 10).1.keys := by
  refine ⟨rfl, rfl, ?_⟩
  decide

/-- C3 (amended): after a successful `write`, and after a successful `read`
from a state already satisfying the bound, the footprint is at most the
budget or the in-memory partition is empty.  (Strictly-less fails exactly at
footprint = budget, where `shrink` does nothing — see the counterexample.) -/
theorem c3_budget_convergence [DecidableEq K] (cfg : Config K V B) :
    (∀ (s s' : Chest K V B) (k : K) (v : V), NodupK s.inmem →
      setItem cfg s k v = (s', none) →
      (memory_usage cfg s' ≤ s'.availableMemory ∨ s'.inmem = [])) ∧
    (∀ (s s' : Chest K V B) (k : K) (r : V), NodupK s.inmem →
      (memory_usage cfg s ≤ s.availableMemory ∨ s.inmem = []) →
      getItem cfg s k = (s', Except.ok r) →
      (memory_usage cfg s' ≤ s'.availableMemory ∨ s'.inmem = [])) := by
  constructor
  · intro s s' k v hn heq
    by_cases hk : k ∈ s.keys
    · rw [setItem_of_mem v hk] at heq
      exact shrink_conv (NodupK_insert' k v (NodupK_eraseKey' k hn)) heq
    · rw [setItem_of_not_mem v hk] at heq
      exact shrink_conv (NodupK_insert' k v hn) heq
  · intro s s' k r hn hconv heq
    cases hl : lookup' s.inmem k with
    | some v =>
      rw [getItem_of_inmem hl] at heq
      injection heq with h1 h2
      rw [← h1]
      exact hconv
    | none =>
      by_cases hk : k ∈ s.keys
      · rcases hg : get_from_disk cfg s k with ⟨s1, e0⟩
        cases e0 with
        | some e' =>
          rw [getItem_disk_err hl hk hg] at heq
          injection heq with h1 h2
          exact absurd h2 (by simp)
        | none =>
          obtain ⟨b, v, hf, hld, hs1⟩ := gfd_ok_parts hl hg
          have hl1 : lookup' s1.inmem k = some v := by
            rw [hs1]
            show lookup' (insert' s.inmem k v) k = some v
            rw [lookup'_insert', if_pos rfl]
          rcases hsh : shrink cfg s1 with ⟨s2, e1⟩
          cases e1 with
          | some e2 =>
            rw [getItem_disk_shrink_err hl hk hg hl1 hsh] at heq
            injection heq with h1 h2
            exact absurd h2 (by simp)
          | none =>
            rw [getItem_disk_shrink_ok hl hk hg hl1 hsh] at heq
            injection heq with h1 h2
            rw [← h1]
            have hn1 : NodupK s1.inmem := by
              rw [hs1]
              exact NodupK_insert' k v hn
            exact shrink_conv hn1 hsh
      · rw [getItem_of_untracked hl hk] at heq
        injection heq with h1 h2
        exact absurd h2 (by simp)

/-- Witness for C3 at concrete write and read calls. -/
theorem c3_witness :
    (memory_usage cfgW (setItem cfgW (freshChest 10) true 3).1 ≤
        (setItem cfgW (freshChest 10) true 3).1.availableMemory ∨
      (setItem cfgW (freshChest 10) true 3).1.inmem = []) ∧
    (memory_usage cfgW (getItem cfgW exS3 false).1 ≤
        (getItem cfgW exS3 false).1.availableMemory ∨
      (getItem cfgW exS3 false).1.inmem = []) :=
  ⟨(c3_budget_convergence cfgW).1 (freshChest 10) _ true 3 (by decide) rfl,
   (c3_budget_convergence cfgW).2 exS3 _ false 6 (by decide) (by decide) rfl⟩

/-- Counterexample to C3 as stated: budget 5, write a value of size 5 — the
write succeeds, the partition is not empty, and the footprint is NOT
strictly below the budget (it equals it; `shrink` evicts nothing). -/
theorem c3_counterexample :
    (setItem cfgW (freshChest 5) true 5).2 = none ∧
    (setItem cfgW (freshChest 5) true 5).1.inmem ≠ [] ∧
    ¬ (memory_usage cfgW (setItem cfgW (freshChest 5) true 5).1 <
        (setItem cfgW (freshChest 5) true 5).1.availableMemory) ∧
    memory_usage cfgW (setItem cfgW (freshChest 5) true 5).1 =
      (setItem cfgW (freshChest 5) true 5).1.availableMemory := by
  decide

/-- C4 (amended): writing `k ↦ v` and immediately reading `k` returns `v`,
provided the deserializer is a left inverse of the serializer, the
serializer is total, the key-to-filename mapping is injective, and the
in-memory dict is well formed.  (Without injectivity a filename collision
can overwrite the just-evicted value — see the counterexample.) -/
theorem c4_write_read_roundtrip [DecidableEq K] (cfg : Config K V B)
    (hInj : Function.Injective cfg.toFilename)
    (hTot : ∀ v : V, cfg.dump v ≠ none)
    (hInv : ∀ (v : V) (b : B), cfg.dump v = some b → cfg.load b = some v)
    (s : Chest K V B) (hn : NodupK s.inmem) (k : K) (v : V) :
    ∃ s1 s2, setItem cfg s k v = (s1, none) ∧ getItem cfg s1 k = (s2, Except.ok v) := by
  by_cases hk : k ∈ s.keys
  · obtain ⟨s1, s2, hsh, hget⟩ := write_then_read_core hInj hTot hInv
      ({ inmem := insert' (eraseKey' s.inmem k) k v,
         keys := insertKey (eraseAllK s.keys k) k,
         files := removeFile s.files (cfg.toFilename k),
         availableMemory := s.availableMemory })
      (NodupK_insert' k v (NodupK_eraseKey' k hn))
      (by show k ∈ insertKey (eraseAllK s.keys k) k
          rw [mem_insertKey]
          exact Or.inr rfl)
      (by show lookup' (insert' (eraseKey' s.inmem k) k v) k = some v
          rw [lookup'_insert', if_pos rfl])
    refine ⟨s1, s2, ?_, hget⟩
    rw [setItem_of_mem v hk]
    exact hsh
  · obtain ⟨s1, s2, hsh, hget⟩ := write_then_read_core hInj hTot hInv
      ({ inmem := insert' s.inmem k v,
         keys := insertKey s.keys k,
         files := s.files,
         availableMemory := s.availableMemory })
      (NodupK_insert' k v hn)
      (by show k ∈ insertKey s.keys k
          rw [mem_insertKey]
          exact Or.inr rfl)
      (by show lookup' (insert' s.inmem k v) k = some v
          rw [lookup'_insert', if_pos rfl])
    refine ⟨s1, s2, ?_, hget⟩
    rw [setItem_of_not_mem v hk]
    exact hsh

/-- Witness for C4 at a concrete write/read pair. -/
theorem c4_witness :
    ∃ s1 s2, setItem cfgW (freshChest 10) true 7 = (s1, none) ∧
      getItem cfgW s1 true = (s2, Except.ok 7) :=
  c4_write_read_roundtrip cfgW (by decide)
    (fun v h => Option.noConfusion h)
    (fun v b h => by
      have h2 : v = b := Option.some_inj.mp h
      show (some b : Option Nat) = some v
      rw [h2])
    (freshChest 10) (by decide) true 7

/-- Counterexample to C4 as stated: under a colliding key-to-filename
function (and a store seeded through the constructor), the eviction run in
a single `write` puts two values in the same file; reading the just-written
key `2 ↦ 5` back returns `4`, even though the deserializer is a left
inverse of the serializer. -/
theorem c4_counterexample :
    (∀ (v b : Nat), cfgColl.dump v = some b → cfgColl.load b = some v) ∧
    (setItem cfgColl collSeed 2 5).2 = none ∧
    (getItem cfgColl (setItem cfgColl collSeed 2 5).1 2).2 = Except.ok 4 ∧
    (4 : Nat) ≠ 5 := by
  refine ⟨?_, rfl, rfl, by decide⟩
  intro v b h
  have h2 : v = b := Option.some_inj.mp h
  show (some b : Option Nat) = some v
  rw [h2]

/-- C5: `read` fails with `KeyNotFound` iff the key is neither in memory nor
in the Key Set, `delete` fails with `KeyNotFound` iff the key is not in the
Key Set, and on a fresh empty store both fail that way for any key. -/
theorem c5_missing_key_errors [DecidableEq K] (cfg : Config K V B)
    (s : Chest K V B) (k : K) (hn : NodupK s.inmem) :
    ((getItem cfg s k).2 = Except.error Err.keyNotFound ↔
      (lookup' s.inmem k = none ∧ k ∉ s.keys)) ∧
    ((delItem cfg s k).2 = some Err.keyNotFound ↔ k ∉ s.keys) ∧
    (∀ am : Nat, (getItem cfg (freshChest am) k).2 = Except.error Err.keyNotFound ∧
      (delItem cfg (freshChest am) k).2 = some Err.keyNotFound) := by
  refine ⟨getItem_kNF_iff hn, ?_, ?_⟩
  · rw [delItem_eq]
    by_cases hk : k ∈ s.keys
    · rw [if_pos hk]
      simp [hk]
    · rw [if_neg hk]
      simp [hk]
  · intro am
    constructor
    · rw [getItem_of_untracked (by simp [freshChest]) (by simp [freshChest])]
    · rw [delItem_eq, if_neg (show k ∉ (freshChest am : Chest K V B).keys by simp [freshChest])]

/-- Witness for C5 at a concrete store and key. -/
theorem c5_witness :
    NodupK exS3.inmem ∧
    (((getItem cfgW exS3 true).2 = Except.error Err.keyNotFound ↔
        (lookup' exS3.inmem true = none ∧ true ∉ exS3.keys)) ∧
      ((delItem cfgW exS3 true).2 = some Err.keyNotFound ↔ true ∉ exS3.keys) ∧
      (∀ am : Nat, (getItem cfgW (freshChest am) true).2 = Except.error Err.keyNotFound ∧
        (delItem cfgW (freshChest am) true).2 = some Err.keyNotFound)) :=
  ⟨by decide, c5_missing_key_errors cfgW exS3 true (by decide)⟩

/-- C6: a write to an existing key first fully removes the prior entry —
from memory, from disk, and from the Key Set — before inserting; and (under
an injective filename map) after the write the key's file is either absent
(value in memory) or holds exactly the freshly serialized new value, so no
stale on-disk copy remains reachable under that key. -/
theorem c6_overwrite_removes_prior [DecidableEq K] (cfg : Config K V B)
    {s s' : Chest K V B} {k : K} {v : V}
    (hk : k ∈ s.keys) (hn : NodupK s.inmem) (heq : setItem cfg s k v = (s', none)) :
    (delItem cfg s k =
      ({ inmem := eraseKey' s.inmem k, keys := eraseAllK s.keys k,
         files := removeFile s.files (cfg.toFilename k),
         availableMemory := s.availableMemory }, none) ∧
     lookup' (eraseKey' s.inmem k) k = none ∧
     fileGet (removeFile s.files (cfg.toFilename k)) (cfg.toFilename k) = none ∧
     k ∉ eraseAllK s.keys k) ∧
    (Function.Injective cfg.toFilename →
      ((lookup' s'.inmem k = some v ∧ fileGet s'.files (cfg.toFilename k) = none) ∨
       (lookup' s'.inmem k = none ∧ ∃ b, cfg.dump v = some b ∧
         fileGet s'.files (cfg.toFilename k) = some (some b)))) := by
  constructor
  · refine ⟨?_, ?_, ?_, ?_⟩
    · have hdel := delItem_eq cfg s k
      rw [if_pos hk] at hdel
      exact hdel
    · rw [lookup'_eraseKey', if_pos rfl]
    · exact fileGet_removeFile_self _ _
    · rw [mem_eraseAllK]
      rintro ⟨-, h⟩
      exact h rfl
  · intro hInj
    rw [setItem_of_mem v hk] at heq
    have hnpre : NodupK (insert' (eraseKey' s.inmem k) k v) :=
      NodupK_insert' k v (NodupK_eraseKey' k hn)
    rcases shrink_track hInj hnpre heq k v
        (by show lookup' (insert' (eraseKey' s.inmem k) k v) k = some v
            rw [lookup'_insert', if_pos rfl]) with ⟨h1, h2⟩ | htr
    · refine Or.inl ⟨h1, ?_⟩
      rw [h2]
      exact fileGet_removeFile_self _ _
    · exact Or.inr htr

/-- Witness for C6 at a concrete overwrite. -/
theorem c6_witness :
    (delItem cfgW exS3 false =
      ({ inmem := eraseKey' exS3.inmem false, keys := eraseAllK exS3.keys false,
         files := removeFile exS3.files (cfgW.toFilename false),
         availableMemory := exS3.availableMemory }, none) ∧
     lookup' (eraseKey' exS3.inmem false) false = none ∧
     fileGet (removeFile exS3.files (cfgW.toFilename false)) (cfgW.toFilename false) = none ∧
     false ∉ eraseAllK exS3.keys false) ∧
    (Function.Injective cfgW.toFilename →
      ((lookup' (setItem cfgW exS3 false 9).1.inmem false = some 9 ∧
        fileGet (setItem cfgW exS3 false 9).1.files (cfgW.toFilename false) = none) ∨
       (lookup' (setItem cfgW exS3 false 9).1.inmem false = none ∧
        ∃ b, cfgW.dump 9 = some b ∧
          fileGet (setItem cfgW exS3 false 9).1.files (cfgW.toFilename false) =
            some (some b)))) :=
  c6_overwrite_removes_prior cfgW (by decide) (by decide) rfl

/-- C7: a successful `flush` empties the In-Memory Partition, leaves a
backing file for every previously in-memory key, persists the Key Set
manifest, and is idempotent: flushing again reproduces exactly the same
state (manifest and value files). -/
theorem c7_flush_spec [DecidableEq K] (cfg : Config K V B)
    {s s1 : Chest K V B} (heq : flushChest cfg s = (s1, none)) :
    s1.inmem = [] ∧
    s1.keys = s.keys ∧
    (∃ b, cfg.dumpKeys s.keys = some b ∧ fileGet s1.files ".keys" = some (some b)) ∧
    (∀ k ∈ keysOf s.inmem, fileGet s1.files (cfg.toFilename k) ≠ none) ∧
    flushChest cfg s1 = (s1, none) := by
  obtain ⟨smid, b, hfl, hd, hs1⟩ := flushChest_ok_parts heq
  have hkeysmid : smid.keys = s.keys := by
    have h := (flushLoop_keys_avail cfg (keysOf s.inmem) s).1
    rw [hfl] at h
    exact h
  have hinmem_mid : smid.inmem = [] := by
    apply lookup'_all_none_eq_nil
    intro x
    rcases flushLoop_drains cfg (keysOf s.inmem) s smid hfl x with h1 | ⟨h1, h2⟩
    · exact h1
    · rw [h1]
      exact (lookup'_eq_none_iff _ _).mpr h2
  have hA : s1.inmem = [] := by
    rw [hs1]
    exact hinmem_mid
  have hkeys1 : s1.keys = s.keys := by
    rw [hs1]
    exact hkeysmid
  have hdump : cfg.dumpKeys s.keys = some b := by
    rw [← hkeysmid]
    exact hd
  have hmanifest : fileGet s1.files ".keys" = some (some b) := by
    rw [hs1]
    show fileGet (setFile (setFile smid.files ".keys" none) ".keys" (some b)) ".keys"
      = some (some b)
    rw [fileGet_setFile_self]
  refine ⟨hA, hkeys1, ⟨b, hdump, hmanifest⟩, ?_, ?_⟩
  · intro k hkmem
    obtain ⟨b', hb'⟩ := flushLoop_files_exist cfg (keysOf s.inmem) s smid hfl k hkmem
    rcases eq_or_ne (cfg.toFilename k) ".keys" with hkn | hkn
    · rw [hkn, hmanifest]
      simp
    · rw [hs1]
      show fileGet (setFile (setFile smid.files ".keys" none) ".keys" (some b))
        (cfg.toFilename k) ≠ none
      rw [fileGet_setFile_ne _ _ hkn, fileGet_setFile_ne _ _ hkn, hb']
      simp
  · have hempty : keysOf s1.inmem = ([] : List K) := by
      rw [hA]
      rfl
    rw [flushChest, hempty,
        show flushLoop cfg ([] : List K) s1 = (s1, none) from rfl]
    show write_keys cfg s1 = (s1, none)
    have hd1 : cfg.dumpKeys s1.keys = some b := by
      rw [hkeys1]
      exact hdump
    rw [write_keys_eq_ok hd1]
    have hfiles : setFile (setFile s1.files ".keys" none) ".keys" (some b) = s1.files := by
      rw [setFile_setFile]
      exact setFile_of_fileGet hmanifest
    rw [hfiles]

/-- Witness for C7 at a concrete flush. -/
theorem c7_witness :
    (flushChest cfgW flushS).1.inmem = [] ∧
    (flushChest cfgW flushS).1.keys = flushS.keys ∧
    (∃ b, cfgW.dumpKeys flushS.keys = some b ∧
      fileGet (flushChest cfgW flushS).1.files ".keys" = some (some b)) ∧
    (∀ k ∈ keysOf flushS.inmem,
      fileGet (flushChest cfgW flushS).1.files (cfgW.toFilename k) ≠ none) ∧
    flushChest cfgW (flushChest cfgW flushS).1 = ((flushChest cfgW flushS).1, none) :=
  c7_flush_spec cfgW rfl

/-- C8 (amended): the default key-to-filename mapping is a pure function of
the key; a string of letters/digits/underscore not starting with a digit —
or such a string followed by exactly one trailing newline, which Python's
`$` anchor also accepts — maps to itself; every other key maps to the
decimal rendering of the absolute value of its hash. -/
theorem c8_default_filename (hash : PyKey → Int) (key : PyKey) :
    key_to_filename hash key = specFilename hash key := by
  cases key with
  | tup a b => rfl
  | str s =>
    rw [key_to_filename, specFilename, reMatchIdent_eq_spec]

/-- Counterexample to C8 as stated: the key `"a\n"` is not an
identifier-pattern string (it contains a newline), yet the code maps it to
itself rather than to the decimal hash digest (`"0"` for this hash). -/
theorem c8_counterexample :
    specIdentCore ("a\n" : String).data = false ∧
    key_to_filename (fun _ => 0) (PyKey.str "a\n") = "a\n" ∧
    toString ((0 : Int)).natAbs = "0" ∧
    ("a\n" : String) ≠ "0" := by
  decide

/-- C9: if the serializer (or the dict lookup) fails while moving a key to
disk, the In-Memory Partition and the Key Set are left exactly as they
were — the removal from memory happens only after a successful write. -/
theorem c9_failed_spill_keeps_memory [DecidableEq K] (cfg : Config K V B)
    {s s1 : Chest K V B} {k : K} {e : Err}
    (h : move_to_disk cfg s k = (s1, some e)) :
    s1.inmem = s.inmem ∧ s1.keys = s.keys := by
  refine ⟨move_err_inmem h, ?_⟩
  have hk := (move_keys_avail cfg s k).1
  rw [h] at hk
  exact hk

/-- Witness for C9 with a serializer that always raises. -/
theorem c9_witness :
    (move_to_disk cfgDumpFail dumpFailS true).1.inmem = dumpFailS.inmem ∧
    (move_to_disk cfgDumpFail dumpFailS true).1.keys = dumpFailS.keys :=
  c9_failed_spill_keeps_memory cfgDumpFail
    (show move_to_disk cfgDumpFail dumpFailS true
        = ((move_to_disk cfgDumpFail dumpFailS true).1, some Err.dumpFailed) from rfl)

/-- C10: deleting a key absent from the Key Set raises `KeyNotFound` and
leaves the Key Set unchanged, but first removes the in-memory entry (if
any) and the file at the key's mapped path (if any): the failure is not
atomic. -/
theorem c10_delete_missing_key [DecidableEq K] (cfg : Config K V B)
    (s : Chest K V B) (k : K) (hk : k ∉ s.keys) :
    delItem cfg s k =
      ({ inmem := eraseKey' s.inmem k, keys := s.keys,
         files := removeFile s.files (cfg.toFilename k),
         availableMemory := s.availableMemory }, some Err.keyNotFound) ∧
    (delItem cfg s k).1.keys = s.keys ∧
    fileGet (delItem cfg s k).1.files (cfg.toFilename k) = none := by
  have heq := delItem_eq cfg s k
  rw [if_neg hk] at heq
  refine ⟨heq, ?_, ?_⟩
  · rw [heq]
  · rw [heq]
    exact fileGet_removeFile_self _ _

/-- Witness for C10: a stray file sits at the mapped path of an untracked
key; the failing delete removes it and reports `KeyNotFound`. -/
theorem c10_witness :
    delItem cfgW delFileS false =
      ({ inmem := eraseKey' delFileS.inmem false, keys := delFileS.keys,
         files := removeFile delFileS.files (cfgW.toFilename false),
         availableMemory := delFileS.availableMemory }, some Err.keyNotFound) ∧
    (delItem cfgW delFileS false).1.keys = delFileS.keys ∧
    fileGet (delItem cfgW delFileS false).1.files (cfgW.toFilename false) = none :=
  c10_delete_missing_key cfgW delFileS false (by decide)

end Claims
